import Mathlib

/-!
# Package `shutdown`: a model of the shutdown coordinator

The package keeps its whole state in package-level variables (`shutdown.go`,
`context_17.go`, `signals_unix.go`).  The model below makes that state an
explicit record and every function of the package a function on the record.

Conventions of the embedding:

* Objects created at run time (the context made by `context.WithCancel`, the
  channel made by `make(chan struct{})`) are identified by a number taken from
  the allocation counter `fresh`.  A context is cancelled iff its number is in
  `cancelled`; a channel is closed iff its number is in `closed`.  The channel
  returned by `ctx.Done()` is identified with the context it belongs to.
* A function value is either the `cancel` function of a context or a function
  supplied by the calling program (`Fn.user k`).  User functions are opaque:
  calling one is recorded in the event log and does not touch the package state.
* `Terminate` is an injectable function; calling it is recorded as the event
  `Event.terminate` and it is assumed to return (as the one of `TestTerminate`).
* Goroutines started with `go` are kept in `pending` until the scheduler runs
  them; the choices of the scheduler are an explicit argument.
* The timer `time.After(Timeout)` becoming ready is an event of the environment
  (`timerFires`), as is the delivery of an operating system signal.
* `log` holds the events of the current lifecycle (since package start or the
  last `TestingReset`), `past` the logs of the lifecycles before it.  The log is
  an observation of the run: no function of the package reads it.

Two levels of execution are defined.  `Step` is the fine-grained one: the part of
`RequestShutdown` up to the start of its goroutines is one step, every goroutine
is a step of its own, and steps of different callers and of the environment
interleave freely.  `Op` is the level of completed calls: `RequestShutdown` runs
until its `wg.Wait()` returns.  Every completed call is a sequence of steps
(`run_as_steps`), and the invariant `Inv` is preserved by every step.
-/

namespace Shutdown

/-- Function values that can be stored in `shutdownFuncs`. -/
inductive Fn where
  | cancel (ctx : Nat)
  | user (id : Nat)
  deriving DecidableEq, Repr

/-- Observable events: entry into `RequestShutdown`, a call of a stored function,
a call of `Terminate`. -/
inductive Event where
  | requestShutdown
  | called (f : Fn)
  | terminate
  deriving DecidableEq, Repr

/-- Where the watchdog goroutine of `RequestShutdown` stands in its `select`. -/
inductive WStatus where
  | armed
  | expired
  | aborted
  deriving DecidableEq, Repr

/-- The watchdog goroutine: `resetC` is the channel it was given as argument. -/
structure Watchdog where
  resetC : Nat
  status : WStatus
  deriving DecidableEq, Repr

/-- Package state.  The fields up to `shutdownCtx` are the package variables of the
same names (`listening` is the goroutine of `catchSignals` together with the
signal set handed to `signal.Notify`); the remaining fields are the run-time
environment described in the header. -/
structure State where
  Signals : List Nat
  once : Bool
  listening : Option (List Nat)
  shutdownFuncs : List Fn
  shutdownRequested : Bool
  testingResetC : Nat
  testingResetWG : Nat
  shutdownC : Nat
  shutdownCtx : Nat
  fresh : Nat
  cancelled : List Nat
  closed : List Nat
  watchdogs : List Watchdog
  pending : List Fn
  log : List Event
  past : List (List Event)
  deriving DecidableEq, Repr

/-- The signal `os.Interrupt` (SIGINT). -/
def sigInterrupt : Nat := 2

/-- The signal `syscall.SIGTERM`. -/
def sigTerm : Nat := 15

/-- All package variables at their zero values; object number 0 stands for `nil`. -/
def zeroState : State :=
  { Signals := [], once := false, listening := none, shutdownFuncs := [],
    shutdownRequested := false, testingResetC := 0, testingResetWG := 0,
    shutdownC := 0, shutdownCtx := 0, fresh := 1, cancelled := [], closed := [],
    watchdogs := [], pending := [], log := [], past := [] }

/-- Function `initContext` of `context_17.go`: a new cancellable context; its cancel function
is appended to `shutdownFuncs`. -/
def initContext (s : State) : State :=
  { s with
    shutdownCtx := s.fresh
    fresh := s.fresh + 1
    shutdownFuncs := s.shutdownFuncs ++ [Fn.cancel s.fresh] }

/-- Function `initGlobals` of `shutdown.go`. -/
def initGlobals (s : State) : State :=
  let s1 := { s with shutdownFuncs := [], shutdownRequested := false }
  let s2 := { s1 with testingResetC := s1.fresh, fresh := s1.fresh + 1 }
  let s3 := initContext s2
  { s3 with shutdownC := s3.shutdownCtx }

/-- State after package start-up on darwin and linux: the `init` of
`shutdown.go` runs `initGlobals`, the one of `signals_unix.go` sets `Signals`. -/
def init : State :=
  { initGlobals zeroState with Signals := [sigInterrupt, sigTerm] }

/-- Function `catchSignals`: under `once.Do`, when `Signals` is not empty, subscribe and start
the goroutine that waits for the first signal. -/
def catchSignals (s : State) : State :=
  if s.once then s
  else
    { s with
      once := true
      listening := if s.Signals.length > 0 then some s.Signals else s.listening }

/-- Function `InProgress`: the state after the call and the channel returned. -/
def InProgress (s : State) : State × Nat :=
  let s1 := catchSignals s
  (s1, s1.shutdownC)

/-- A receive from the `Done` channel of context `c` would not block. -/
def doneClosed (s : State) (c : Nat) : Bool :=
  decide (c ∈ s.cancelled)

/-- Function `Requested`: a non-blocking receive from `InProgress()`. -/
def Requested (s : State) : State × Bool :=
  let r := InProgress s
  (r.1, doneClosed r.1 r.2)

/-- Function `Context` of `context_17.go`: the state after the call and the context returned. -/
def Context (s : State) : State × Nat :=
  let s1 := catchSignals s
  (s1, s1.shutdownCtx)

/-- Function `RegisterCallback`; `none` is the nil function. -/
def RegisterCallback (f : Option Nat) (s : State) : State :=
  let s1 := catchSignals s
  match f with
  | none => s1
  | some k => { s1 with shutdownFuncs := s1.shutdownFuncs ++ [Fn.user k] }

/-- The watchdog `w` is blocked in its `select` and its reset channel is closed. -/
def observesReset (closed : List Nat) (w : Watchdog) : Bool :=
  decide (w.status = WStatus.armed) && decide (w.resetC ∈ closed)

/-- Every watchdog that can take the `<-testingResetC` branch takes it and runs its
deferred `testingResetWG.Done()`. -/
def watchdogsAbort (s : State) : State :=
  { s with
    watchdogs := s.watchdogs.map fun w =>
      if observesReset s.closed w then { w with status := WStatus.aborted } else w
    testingResetWG := s.testingResetWG - s.watchdogs.countP (observesReset s.closed) }

/-- Function `TestingReset`.  The result is `none` when the call does not return: closing a closed channel
panics, and `testingResetWG.Wait()` blocks while the counter is not zero.  The
event log of the lifecycle that ends is moved to `past`. -/
def TestingReset (s : State) : Option State :=
  if s.testingResetC ∈ s.closed then none
  else
    let s1 := watchdogsAbort { s with closed := s.testingResetC :: s.closed }
    if s1.testingResetWG = 0 then
      some (initGlobals { s1 with past := s1.past ++ [s1.log], log := [] })
    else none

/-- Function `RequestShutdown` up to the point where all its goroutines have been started:
the critical section, the early return, the watchdog, one goroutine per drained
function (in the order of the list). -/
def requestBegin (s : State) : State :=
  let funcs := s.shutdownFuncs
  let alreadyRequested := s.shutdownRequested
  let s1 := { s with
    shutdownFuncs := []
    shutdownRequested := true
    log := s.log ++ [Event.requestShutdown] }
  if alreadyRequested then s1
  else
    { s1 with
      testingResetWG := s1.testingResetWG + 1
      watchdogs := s1.watchdogs ++ [{ resetC := s1.testingResetC, status := WStatus.armed }]
      pending := s1.pending ++ funcs }

/-- Calling a stored function. -/
def callFn (f : Fn) (s : State) : State :=
  match f with
  | Fn.cancel c => { s with cancelled := c :: s.cancelled, log := s.log ++ [Event.called f] }
  | Fn.user _ => { s with log := s.log ++ [Event.called f] }

/-- The scheduler runs the started goroutine number `k` (modulo the number of
goroutines waiting): `f()` followed by `wg.Done()`. -/
def goroutine (k : Nat) (s : State) : State :=
  match s.pending with
  | [] => s
  | f :: fs =>
    let i := k % (f :: fs).length
    callFn ((f :: fs).getD i f) { s with pending := (f :: fs).eraseIdx i }

/-- The `wg.Wait()` at the end of `RequestShutdown`: goroutines run in the order chosen by
the scheduler until none is left; when the list of choices is used up the
remaining ones run in the order they were started. -/
def waitGoroutines : List Nat → State → State
  | [], s => Nat.iterate (goroutine 0) s.pending.length s
  | k :: ks, s => if s.pending = [] then s else waitGoroutines ks (goroutine k s)

/-- Function `RequestShutdown` run to completion under the schedule `sched`. -/
def RequestShutdown (sched : List Nat) (s : State) : State :=
  if s.shutdownRequested then requestBegin s
  else waitGoroutines sched (requestBegin s)

/-- The timer of watchdog number `i` is ready: if the watchdog is still in its
`select` it calls `Terminate` and then runs the deferred `Done`. -/
def timerFires (i : Nat) (s : State) : State :=
  match s.watchdogs[i]? with
  | some w =>
    if w.status = WStatus.armed then
      { s with
        watchdogs := s.watchdogs.set i { w with status := WStatus.expired }
        log := s.log ++ [Event.terminate]
        testingResetWG := s.testingResetWG - 1 }
    else s
  | none => s

/-- Signal `sig` is delivered to the process: the goroutine of `catchSignals`, if it is
still there and subscribed to `sig`, enters `RequestShutdown` and will return
after it. -/
def signalBegin (sig : Nat) (s : State) : State :=
  match s.listening with
  | some subs => if sig ∈ subs then requestBegin { s with listening := none } else s
  | none => s

/-- Signal `sig` is delivered and the `RequestShutdown` it causes, if any, runs to
completion under the schedule `sched`. -/
def signal (sig : Nat) (sched : List Nat) (s : State) : State :=
  match s.listening with
  | some subs => if sig ∈ subs then RequestShutdown sched { s with listening := none } else s
  | none => s

/-- The calling program assigns the package variable `Signals`. -/
def setSignals (sigs : List Nat) (s : State) : State :=
  { s with Signals := sigs }

/-- Atomic steps of the system, for arbitrary interleavings. -/
inductive Step where
  | registerCallback (f : Option Nat)
  | requestBegin
  | goroutine (k : Nat)
  | testingReset
  | inProgress
  | requested
  | context
  | timerFires (i : Nat)
  | signalBegin (sig : Nat)
  | setSignals (sigs : List Nat)
  deriving DecidableEq, Repr

/-- Effect of one atomic step. -/
def Step.apply : Step → State → Option State
  | Step.registerCallback f, s => some (RegisterCallback f s)
  | Step.requestBegin, s => some (Shutdown.requestBegin s)
  | Step.goroutine k, s => some (Shutdown.goroutine k s)
  | Step.testingReset, s => TestingReset s
  | Step.inProgress, s => some (InProgress s).1
  | Step.requested, s => some (Requested s).1
  | Step.context, s => some (Context s).1
  | Step.timerFires i, s => some (Shutdown.timerFires i s)
  | Step.signalBegin sig, s => some (Shutdown.signalBegin sig s)
  | Step.setSignals sigs, s => some (Shutdown.setSignals sigs s)

/-- Effect of a sequence of atomic steps. -/
def runSteps : List Step → State → Option State
  | [], s => some s
  | st :: rest, s => (st.apply s).bind (runSteps rest)

/-- Completed operations: the public functions of the package, each run to its
return, and the events of the environment. -/
inductive Op where
  | RegisterCallback (f : Option Nat)
  | RequestShutdown (sched : List Nat)
  | TestingReset
  | InProgress
  | Requested
  | Context
  | timerFires (i : Nat)
  | signal (sig : Nat) (sched : List Nat)
  | setSignals (sigs : List Nat)
  deriving DecidableEq, Repr

/-- Effect of one completed operation. -/
def Op.exec : Op → State → Option State
  | Op.RegisterCallback f, s => some (Shutdown.RegisterCallback f s)
  | Op.RequestShutdown sched, s => some (Shutdown.RequestShutdown sched s)
  | Op.TestingReset, s => Shutdown.TestingReset s
  | Op.InProgress, s => some (Shutdown.InProgress s).1
  | Op.Requested, s => some (Shutdown.Requested s).1
  | Op.Context, s => some (Shutdown.Context s).1
  | Op.timerFires i, s => some (Shutdown.timerFires i s)
  | Op.signal sig sched, s => some (Shutdown.signal sig sched s)
  | Op.setSignals sigs, s => some (Shutdown.setSignals sigs s)

/-- Effect of a sequence of completed operations. -/
def run : List Op → State → Option State
  | [], s => some s
  | o :: rest, s => (o.exec s).bind (run rest)

/-- Number of watchdogs still in their `select`. -/
def armedCount (s : State) : Nat :=
  s.watchdogs.countP fun w => decide (w.status = WStatus.armed)

/-- Number of calls of `Terminate` in a log. -/
def terminations (l : List Event) : Nat :=
  l.count Event.terminate

/-- The user functions called in a log, in the order of their calls. -/
def userCalls (l : List Event) : List Nat :=
  l.filterMap fun e =>
    match e with
    | Event.called (Fn.user k) => some k
    | _ => none

/-- What holds in every state the system can reach, whatever the interleaving. -/
structure Inv (s : State) : Prop where
  chan : s.shutdownC = s.shutdownCtx
  ctx_lt : s.shutdownCtx < s.fresh
  resetC_lt : s.testingResetC < s.fresh
  cancelled_lt : ∀ c ∈ s.cancelled, c < s.fresh
  closed_lt : ∀ c ∈ s.closed, c < s.fresh
  pending_lt : ∀ c, Fn.cancel c ∈ s.pending → c < s.fresh
  funcs_lt : ∀ c, Fn.cancel c ∈ s.shutdownFuncs → c < s.fresh
  resetC_open : s.testingResetC ∉ s.closed
  armed_chan : ∀ w ∈ s.watchdogs, w.status = WStatus.armed → w.resetC = s.testingResetC
  wg : s.testingResetWG = armedCount s
  idle : s.shutdownRequested = false →
    (∃ us : List Nat, s.shutdownFuncs = Fn.cancel s.shutdownCtx :: us.map Fn.user) ∧
    s.shutdownCtx ∉ s.cancelled ∧ Fn.cancel s.shutdownCtx ∉ s.pending ∧
    armedCount s = 0 ∧ terminations s.log = 0 ∧ Event.requestShutdown ∉ s.log
  triggered : s.shutdownRequested = true →
    (s.shutdownCtx ∈ s.cancelled ∨ Fn.cancel s.shutdownCtx ∈ s.pending) ∧
    armedCount s + terminations s.log = 1 ∧ Event.requestShutdown ∈ s.log
  past_ok : ∀ l ∈ s.past, terminations l ≤ 1
  expired_total : (s.past.map terminations).sum + terminations s.log =
    s.watchdogs.countP fun w => decide (w.status = WStatus.expired)

/-- States between completed operations: the invariant holds and no goroutine of
`RequestShutdown` is left. -/
def Quiet (s : State) : Prop := Inv s ∧ s.pending = []

/-- The order in which a scheduler making the choices `sched` runs the goroutines
started in the order `l` (the same choices as `waitGoroutines` makes). -/
def pick {α : Type} : List Nat → List α → List α
  | [], l => l
  | _ :: _, [] => []
  | k :: ks, x :: xs =>
    (x :: xs).getD (k % (x :: xs).length) x ::
      pick ks ((x :: xs).eraseIdx (k % (x :: xs).length))

/-- Total number of calls of `Terminate` since package start. -/
def totalTerminations (s : State) : Nat :=
  (s.past.map terminations).sum + terminations s.log

/-- A stored function as seen from a lifecycle: the cancel function of the current
context is the broadcast, whatever the number of the context. -/
inductive Role where
  | broadcast
  | stale
  | user (id : Nat)
  deriving DecidableEq, Repr

/-- Role of a function when `ctx` is the current context. -/
def Fn.role (ctx : Nat) : Fn → Role
  | Fn.cancel c => if c = ctx then Role.broadcast else Role.stale
  | Fn.user k => Role.user k

/-- Events with functions replaced by their roles. -/
inductive REvent where
  | requestShutdown
  | called (r : Role)
  | terminate
  deriving DecidableEq, Repr

/-- Event as seen from the lifecycle whose context is `ctx`. -/
def Event.role (ctx : Nat) : Event → REvent
  | Event.requestShutdown => REvent.requestShutdown
  | Event.called f => REvent.called (f.role ctx)
  | Event.terminate => REvent.terminate

/-- What a lifecycle shows of the state: the answers of the three observers, the
requested flag, the registry, the watchdogs still armed, the wait group, the
goroutines not yet run and the events so far.  Object numbers do not appear. -/
structure View where
  requested : Bool
  inProgress : Bool
  context : Bool
  flag : Bool
  registry : List Role
  armed : Nat
  waiting : Nat
  pending : List Role
  events : List REvent
  deriving DecidableEq, Repr

/-- The view of a state. -/
def view (s : State) : View :=
  { requested := (Requested s).2
    inProgress := doneClosed (InProgress s).1 (InProgress s).2
    context := doneClosed (Context s).1 (Context s).2
    flag := s.shutdownRequested
    registry := s.shutdownFuncs.map (Fn.role s.shutdownCtx)
    armed := armedCount s
    waiting := s.testingResetWG
    pending := s.pending.map (Fn.role s.shutdownCtx)
    events := s.log.map (Event.role s.shutdownCtx) }

/-- The two calls a program makes in a lifecycle: registering and requesting. -/
inductive Call where
  | RegisterCallback (f : Option Nat)
  | RequestShutdown (sched : List Nat)
  deriving DecidableEq, Repr

/-- A call as a completed operation. -/
def Call.toOp : Call → Op
  | Call.RegisterCallback f => Op.RegisterCallback f
  | Call.RequestShutdown sched => Op.RequestShutdown sched

/-- The non-nil functions passed to `RegisterCallback` before the first
`RequestShutdown` of a sequence of calls. -/
def registeredBefore : List Call → List Nat
  | [] => []
  | Call.RegisterCallback none :: rest => registeredBefore rest
  | Call.RegisterCallback (some k) :: rest => k :: registeredBefore rest
  | Call.RequestShutdown _ :: _ => []

/-- The sequence of calls contains a `RequestShutdown`. -/
def hasRequest : List Call → Bool
  | [] => false
  | Call.RegisterCallback _ :: rest => hasRequest rest
  | Call.RequestShutdown _ :: _ => true

/-- The user functions that a lifecycle made of the calls `cs` has to execute. -/
def expectedCalls (cs : List Call) : List Nat :=
  if hasRequest cs then registeredBefore cs else []

/-- A state before the trigger of its lifecycle with no event yet: the registry holds
the cancel function of the current context followed by the user functions `us`. -/
structure Untriggered (s : State) (us : List Nat) : Prop where
  flag : s.shutdownRequested = false
  funcs : s.shutdownFuncs = Fn.cancel s.shutdownCtx :: us.map Fn.user
  chan : s.shutdownC = s.shutdownCtx
  notCancelled : s.shutdownCtx ∉ s.cancelled
  pending : s.pending = []
  log : s.log = []
  armed : armedCount s = 0
  wg : s.testingResetWG = 0

/-- The calls `RegisterCallback(f)` for the `f` of a list, in order. -/
def registerAll (fs : List (Option Nat)) (s : State) : State :=
  fs.foldl (fun st f => RegisterCallback f st) s

/-- The public functions of the package, as called by a program. -/
inductive PublicOp where
  | RegisterCallback (f : Option Nat)
  | RequestShutdown (sched : List Nat)
  | TestingReset
  | InProgress
  | Requested
  | Context
  deriving DecidableEq, Repr

/-- A call of a public function as a completed operation. -/
def PublicOp.toOp : PublicOp → Op
  | PublicOp.RegisterCallback f => Op.RegisterCallback f
  | PublicOp.RequestShutdown sched => Op.RequestShutdown sched
  | PublicOp.TestingReset => Op.TestingReset
  | PublicOp.InProgress => Op.InProgress
  | PublicOp.Requested => Op.Requested
  | PublicOp.Context => Op.Context

/-- Reading a sequence of calls from left to right, starting from `b`: whether
`RequestShutdown` has been called since the last `TestingReset`. -/
def requestedSince (b : Bool) : List PublicOp → Bool
  | [] => b
  | PublicOp.RequestShutdown _ :: rest => requestedSince true rest
  | PublicOp.TestingReset :: rest => requestedSince false rest
  | _ :: rest => requestedSince b rest

/-- The three observers agree with each other and with the trigger: they answer the
same, they answer yes exactly when `RequestShutdown` has been entered in the
lifecycle, and they answer yes after a further `RequestShutdown` has returned. -/
def ObserversAgree (s : State) : Prop :=
  ((Requested s).2 = true ↔ doneClosed (InProgress s).1 (InProgress s).2 = true) ∧
  ((Requested s).2 = true ↔ doneClosed (Context s).1 (Context s).2 = true) ∧
  ((Requested s).2 = true ↔ Event.requestShutdown ∈ s.log) ∧
  ∀ sched,
    (Requested (RequestShutdown sched s)).2 = true ∧
    doneClosed (InProgress (RequestShutdown sched s)).1
      (InProgress (RequestShutdown sched s)).2 = true ∧
    doneClosed (Context (RequestShutdown sched s)).1
      (Context (RequestShutdown sched s)).2 = true

/-- The state is at the start of a lifecycle: the observers report no shutdown, the
registry holds only the cancel function of the current context, no watchdog is
armed (the wait group is at zero and no timer has an effect), the state looks
like the one after package start, and so does the state after a following
`RequestShutdown`, also with callbacks registered first, for every choice of
the scheduler. -/
def LifecycleStart (s1 : State) : Prop :=
  (Requested s1).2 = false ∧
  doneClosed (InProgress s1).1 (InProgress s1).2 = false ∧
  doneClosed (Context s1).1 (Context s1).2 = false ∧
  s1.shutdownRequested = false ∧
  s1.shutdownFuncs = [Fn.cancel s1.shutdownCtx] ∧
  armedCount s1 = 0 ∧ s1.testingResetWG = 0 ∧
  (∀ i, timerFires i s1 = s1) ∧
  view s1 = view init ∧
  ∀ (fs : List (Option Nat)) (sched : List Nat),
    view (RequestShutdown sched (registerAll fs s1)) =
      view (RequestShutdown sched (registerAll fs init))

/-! ## The invariant -/

theorem inv_init : Inv init := by
  constructor <;> simp [init, initGlobals, initContext, zeroState, armedCount, terminations]

theorem inv_catchSignals {s : State} (h : Inv s) : Inv (catchSignals s) := by
  unfold catchSignals
  split
  · exact h
  · exact ⟨h.chan, h.ctx_lt, h.resetC_lt, h.cancelled_lt, h.closed_lt, h.pending_lt, h.funcs_lt,
      h.resetC_open, h.armed_chan, h.wg, h.idle, h.triggered, h.past_ok, h.expired_total⟩

theorem inv_setSignals {s : State} (sigs : List Nat) (h : Inv s) : Inv (setSignals sigs s) :=
  ⟨h.chan, h.ctx_lt, h.resetC_lt, h.cancelled_lt, h.closed_lt, h.pending_lt, h.funcs_lt,
    h.resetC_open, h.armed_chan, h.wg, h.idle, h.triggered, h.past_ok, h.expired_total⟩

theorem inv_RegisterCallback {s : State} (f : Option Nat) (h : Inv s) :
    Inv (RegisterCallback f s) := by
  have h1 := inv_catchSignals h
  unfold RegisterCallback
  cases f with
  | none => exact h1
  | some k =>
    refine ⟨h1.chan, h1.ctx_lt, h1.resetC_lt, h1.cancelled_lt, h1.closed_lt, h1.pending_lt, ?_,
      h1.resetC_open, h1.armed_chan, h1.wg, ?_, h1.triggered, h1.past_ok, h1.expired_total⟩
    · intro c hc
      simp at hc
      exact h1.funcs_lt c hc
    · intro hr
      obtain ⟨⟨us, hus⟩, h2⟩ := h1.idle hr
      refine ⟨⟨us ++ [k], ?_⟩, h2⟩
      simp [hus]

theorem terminations_append (l : List Event) (e : Event) :
    terminations (l ++ [e]) = terminations l + if e = Event.terminate then 1 else 0 := by
  unfold terminations
  rw [List.count_append]
  by_cases h : e = Event.terminate <;> simp [h, List.count_singleton]

theorem inv_requestBegin {s : State} (h : Inv s) : Inv (requestBegin s) := by
  unfold requestBegin
  cases hr : s.shutdownRequested with
  | true =>
    obtain ⟨h1, h2, h3⟩ := h.triggered hr
    refine ⟨h.chan, h.ctx_lt, h.resetC_lt, h.cancelled_lt, h.closed_lt, h.pending_lt, ?_,
      h.resetC_open, h.armed_chan, h.wg, ?_, ?_, h.past_ok, ?_⟩
    · intro c hc; simp at hc
    · intro hf; simp at hf
    · intro _
      refine ⟨h1, ?_, ?_⟩
      · simpa [terminations_append, armedCount] using h2
      · simp
    · simpa [terminations_append] using h.expired_total
  | false =>
    obtain ⟨⟨us, hus⟩, h2, h3, h4, h5, h6⟩ := h.idle hr
    refine ⟨h.chan, h.ctx_lt, h.resetC_lt, h.cancelled_lt, h.closed_lt, ?_, ?_,
      h.resetC_open, ?_, ?_, ?_, ?_, h.past_ok, ?_⟩
    · intro c hc
      simp only [Bool.false_eq_true, if_false, List.mem_append] at hc
      rcases hc with hc | hc
      · exact h.pending_lt c hc
      · exact h.funcs_lt c hc
    · intro c hc; simp at hc
    · intro w hw ha
      simp only [Bool.false_eq_true, if_false, List.mem_append, List.mem_singleton] at hw
      rcases hw with hw | hw
      · exact h.armed_chan w hw ha
      · subst hw; rfl
    · have := h.wg
      simp [armedCount] at this ⊢
      omega
    · intro hf; simp at hf
    · intro _
      refine ⟨Or.inr ?_, ?_, ?_⟩
      · simp [hus]
      · simp [armedCount] at h4 ⊢
        simpa [terminations_append, h5] using h4
      · simp
    · simpa [terminations_append] using h.expired_total

theorem goroutine_cases (k : Nat) (s : State) :
    (s.pending = [] ∧ goroutine k s = s) ∨
    ∃ i f, s.pending[i]? = some f ∧
      goroutine k s = callFn f { s with pending := s.pending.eraseIdx i } := by
  unfold goroutine
  cases hp : s.pending with
  | nil => exact Or.inl ⟨rfl, rfl⟩
  | cons f fs =>
    right
    have hlt : k % (f :: fs).length < (f :: fs).length := Nat.mod_lt _ (by simp)
    refine ⟨k % (f :: fs).length, (f :: fs)[k % (f :: fs).length], ?_, ?_⟩
    · exact List.getElem?_eq_getElem hlt
    · simp only [List.getD_eq_getElem?_getD, List.getElem?_eq_getElem hlt, Option.getD_some]

theorem mem_eraseIdx_or {α : Type} {l : List α} {i : Nat} {x y : α}
    (hy : l[i]? = some y) (hx : x ∈ l) : x ∈ l.eraseIdx i ∨ x = y := by
  obtain ⟨j, hj⟩ := List.getElem?_of_mem hx
  by_cases hji : j = i
  · subst hji
    rw [hj] at hy
    exact Or.inr (Option.some.inj hy)
  · exact Or.inl (List.mem_eraseIdx_iff_getElem?.2 ⟨j, hji, hj⟩)

theorem inv_goroutine {s : State} (k : Nat) (h : Inv s) : Inv (goroutine k s) := by
  rcases goroutine_cases k s with ⟨_, he⟩ | ⟨i, f, hf, he⟩
  · rw [he]; exact h
  · rw [he]
    have hmem : f ∈ s.pending := List.getElem?_mem hf
    have hsub : ∀ x, x ∈ s.pending.eraseIdx i → x ∈ s.pending :=
      fun x hx => List.mem_of_mem_eraseIdx hx
    cases f with
    | user u =>
      refine ⟨h.chan, h.ctx_lt, h.resetC_lt, h.cancelled_lt, h.closed_lt, ?_, h.funcs_lt,
        h.resetC_open, h.armed_chan, h.wg, ?_, ?_, h.past_ok, ?_⟩
      · intro c hc; exact h.pending_lt c (hsub _ hc)
      · intro hr
        obtain ⟨h1, h2, h3, h4, h5, h6⟩ := h.idle hr
        refine ⟨h1, h2, fun hc => h3 (hsub _ hc), h4, ?_, ?_⟩
        · simpa [callFn, terminations_append] using h5
        · simpa [callFn] using h6
      · intro hr
        obtain ⟨h1, h2, h3⟩ := h.triggered hr
        refine ⟨?_, ?_, ?_⟩
        · rcases h1 with h1 | h1
          · exact Or.inl h1
          · rcases mem_eraseIdx_or hf h1 with h1 | h1
            · exact Or.inr h1
            · cases h1
        · simpa [callFn, terminations_append, armedCount] using h2
        · simp [callFn, h3]
      · simpa [callFn, terminations_append] using h.expired_total
    | cancel c =>
      have hc : c < s.fresh := h.pending_lt c hmem
      refine ⟨h.chan, h.ctx_lt, h.resetC_lt, ?_, h.closed_lt, ?_, h.funcs_lt,
        h.resetC_open, h.armed_chan, h.wg, ?_, ?_, h.past_ok, ?_⟩
      · intro d hd
        simp only [callFn, List.mem_cons] at hd
        rcases hd with hd | hd
        · subst hd; exact hc
        · exact h.cancelled_lt d hd
      · intro d hd; exact h.pending_lt d (hsub _ hd)
      · intro hr
        obtain ⟨h1, h2, h3, h4, h5, h6⟩ := h.idle hr
        refine ⟨h1, ?_, fun hd => h3 (hsub _ hd), h4, ?_, ?_⟩
        · simp only [callFn, List.mem_cons, not_or]
          refine ⟨?_, h2⟩
          intro hcc
          apply h3
          show Fn.cancel s.shutdownCtx ∈ s.pending
          rw [hcc]; exact hmem
        · simpa [callFn, terminations_append] using h5
        · simpa [callFn] using h6
      · intro hr
        obtain ⟨h1, h2, h3⟩ := h.triggered hr
        refine ⟨?_, ?_, ?_⟩
        · rcases h1 with h1 | h1
          · left; simp [callFn, h1]
          · rcases mem_eraseIdx_or hf h1 with h1 | h1
            · exact Or.inr h1
            · left
              injection h1 with h1
              simp [callFn, h1]
        · simpa [callFn, terminations_append, armedCount] using h2
        · simp [callFn, h3]
      · simpa [callFn, terminations_append] using h.expired_total

theorem countP_set_expired (l : List Watchdog) (i : Nat) (w : Watchdog)
    (hw : l[i]? = some w) (ha : w.status = WStatus.armed) :
    (l.set i { w with status := WStatus.expired }).countP
        (fun w => decide (w.status = WStatus.armed)) + 1 =
      l.countP (fun w => decide (w.status = WStatus.armed)) ∧
    (l.set i { w with status := WStatus.expired }).countP
        (fun w => decide (w.status = WStatus.expired)) =
      l.countP (fun w => decide (w.status = WStatus.expired)) + 1 := by
  induction l generalizing i with
  | nil => simp at hw
  | cons x xs ih =>
    cases i with
    | zero =>
      simp only [List.getElem?_cons_zero, Option.some.injEq] at hw
      subst hw
      simp [List.countP_cons, ha]
    | succ j =>
      simp only [List.getElem?_cons_succ] at hw
      obtain ⟨h1, h2⟩ := ih j hw
      simp only [List.set_cons_succ, List.countP_cons]
      constructor <;> omega

theorem inv_timerFires {s : State} (i : Nat) (h : Inv s) : Inv (timerFires i s) := by
  unfold timerFires
  cases hw : s.watchdogs[i]? with
  | none => exact h
  | some w =>
    by_cases ha : w.status = WStatus.armed
    · simp only [ha, if_true]
      obtain ⟨hc1, hc2⟩ := countP_set_expired s.watchdogs i w hw ha
      have hreq : s.shutdownRequested = true := by
        cases hr : s.shutdownRequested with
        | true => rfl
        | false =>
          have h4 := (h.idle hr).2.2.2.1
          unfold armedCount at h4
          omega
      obtain ⟨h1, h2, h3⟩ := h.triggered hreq
      have hwg := h.wg
      unfold armedCount at h2 hwg
      refine ⟨h.chan, h.ctx_lt, h.resetC_lt, h.cancelled_lt, h.closed_lt, h.pending_lt, h.funcs_lt,
        h.resetC_open, ?_, ?_, ?_, ?_, h.past_ok, ?_⟩
      · intro v hv hva
        rcases List.mem_or_eq_of_mem_set hv with hv | hv
        · exact h.armed_chan v hv hva
        · subst hv; simp at hva
      · show s.testingResetWG - 1 = _
        unfold armedCount
        show _ = List.countP _ (s.watchdogs.set i _)
        omega
      · intro hr; rw [hreq] at hr; cases hr
      · intro _
        refine ⟨h1, ?_, ?_⟩
        · unfold armedCount
          show List.countP _ (s.watchdogs.set i _) + terminations (s.log ++ _) = 1
          rw [terminations_append]
          simp only [if_true]
          omega
        · show Event.requestShutdown ∈ s.log ++ _
          simp [h3]
      · show _ + terminations (s.log ++ _) = List.countP _ (s.watchdogs.set i _)
        rw [terminations_append, hc2]
        have := h.expired_total
        simp only [if_true]
        omega
    · simp only [ha, if_false]
      exact h

theorem inv_signalBegin {s : State} (sig : Nat) (h : Inv s) : Inv (signalBegin sig s) := by
  unfold signalBegin
  cases hl : s.listening with
  | none => exact h
  | some subs =>
    by_cases hs : sig ∈ subs
    · simp only [hs, if_true]
      apply inv_requestBegin
      exact ⟨h.chan, h.ctx_lt, h.resetC_lt, h.cancelled_lt, h.closed_lt, h.pending_lt, h.funcs_lt,
        h.resetC_open, h.armed_chan, h.wg, h.idle, h.triggered, h.past_ok, h.expired_total⟩
    · simp only [hs, if_false]
      exact h

/-- After the reset channel is closed every watchdog still waiting leaves through the
reset branch: none stays armed, the wait group reaches zero. -/
theorem watchdogsAbort_spec {s : State} (h : Inv s) :
    let s1 := watchdogsAbort { s with closed := s.testingResetC :: s.closed }
    armedCount s1 = 0 ∧ s1.testingResetWG = 0 ∧
    s1.watchdogs.countP (fun w => decide (w.status = WStatus.expired)) =
      s.watchdogs.countP (fun w => decide (w.status = WStatus.expired)) := by
  have hobs : ∀ w ∈ s.watchdogs,
      observesReset (s.testingResetC :: s.closed) w = decide (w.status = WStatus.armed) := by
    intro w hw
    by_cases ha : w.status = WStatus.armed
    · simp [observesReset, ha, h.armed_chan w hw ha]
    · simp [observesReset, ha]
  refine ⟨?_, ?_, ?_⟩
  · simp only [armedCount, watchdogsAbort, List.countP_map, List.countP_eq_zero]
    intro w hw
    by_cases ha : w.status = WStatus.armed
    · simp [hobs w hw, ha]
    · simp [hobs w hw, ha]
  · simp only [watchdogsAbort]
    have hcount : s.watchdogs.countP (observesReset (s.testingResetC :: s.closed)) =
        s.watchdogs.countP (fun w => decide (w.status = WStatus.armed)) :=
      List.countP_congr fun w hw => by rw [hobs w hw]
    have := h.wg
    unfold armedCount at this
    rw [hcount]
    omega
  · simp only [watchdogsAbort, List.countP_map]
    apply List.countP_congr
    intro w hw
    by_cases ha : w.status = WStatus.armed
    · simp [hobs w hw, ha]
    · simp [hobs w hw, ha]

theorem terminations_log_le {s : State} (h : Inv s) : terminations s.log ≤ 1 := by
  cases hr : s.shutdownRequested with
  | true => have := (h.triggered hr).2.1; omega
  | false => have := (h.idle hr).2.2.2.2.1; omega

/-- From a state satisfying the invariant `TestingReset` returns, and what it returns
is a state at the start of a lifecycle. -/
theorem TestingReset_spec {s : State} (h : Inv s) :
    ∃ s1, TestingReset s = some s1 ∧ Inv s1 ∧ s1.shutdownRequested = false ∧
      s1.shutdownFuncs = [Fn.cancel s1.shutdownCtx] ∧ s1.log = [] ∧ armedCount s1 = 0 ∧
      s1.testingResetWG = 0 ∧ s1.pending = s.pending ∧ s1.past = s.past ++ [s.log] ∧
      s1.once = s.once ∧ s1.listening = s.listening ∧ s1.Signals = s.Signals := by
  obtain ⟨ha, hwg, hexp⟩ := watchdogsAbort_spec h
  refine ⟨initGlobals
    { watchdogsAbort { s with closed := s.testingResetC :: s.closed } with
      past := s.past ++ [s.log], log := [] }, ?_, ?_, rfl, rfl, rfl, ha, hwg, rfl, rfl, rfl, rfl, rfl⟩
  · unfold TestingReset
    rw [if_neg h.resetC_open]
    simp only [hwg, if_true]
    rfl
  · have hlt : ∀ c ∈ s.testingResetC :: s.closed, c < s.fresh := by
      intro c hc
      rcases List.mem_cons.1 hc with hc | hc
      · rw [hc]; exact h.resetC_lt
      · exact h.closed_lt c hc
    refine ⟨rfl, ?_, ?_, ?_, ?_, ?_, ?_, ?_, ?_, ?_, ?_, ?_, ?_, ?_⟩
    · show s.fresh + 1 < s.fresh + 1 + 1
      omega
    · show s.fresh < s.fresh + 1 + 1
      omega
    · intro c hc
      have := h.cancelled_lt c hc
      show c < s.fresh + 1 + 1
      omega
    · intro c hc
      have := hlt c hc
      show c < s.fresh + 1 + 1
      omega
    · intro c hc
      have := h.pending_lt c hc
      show c < s.fresh + 1 + 1
      omega
    · intro c hc
      have hc2 : Fn.cancel c ∈ [Fn.cancel (s.fresh + 1)] := hc
      simp only [List.mem_singleton, Fn.cancel.injEq] at hc2
      show c < s.fresh + 1 + 1
      omega
    · intro hc
      have := hlt s.fresh hc
      omega
    · intro w hw hwa
      exfalso
      have h0 := List.countP_eq_zero.1 ha w hw
      simp [hwa] at h0
    · exact hwg.trans ha.symm
    · intro _
      refine ⟨⟨[], rfl⟩, ?_, ?_, ha, rfl, ?_⟩
      · intro hc
        have := h.cancelled_lt (s.fresh + 1) hc
        omega
      · intro hc
        have := h.pending_lt (s.fresh + 1) hc
        omega
      · intro hc; cases hc
    · intro hr; cases hr
    · intro l hl
      have hl2 : l ∈ s.past ++ [s.log] := hl
      rcases List.mem_append.1 hl2 with hl2 | hl2
      · exact h.past_ok l hl2
      · rw [List.mem_singleton.1 hl2]; exact terminations_log_le h
    · refine Eq.trans ?_ hexp.symm
      rw [← h.expired_total]
      show (List.map terminations (s.past ++ [s.log])).sum + terminations [] = _
      simp [terminations]

theorem inv_step {s s1 : State} (st : Step) (h : Inv s) (hs : st.apply s = some s1) : Inv s1 := by
  cases st with
  | registerCallback f =>
    simp only [Step.apply, Option.some.injEq] at hs; subst hs; exact inv_RegisterCallback f h
  | requestBegin =>
    simp only [Step.apply, Option.some.injEq] at hs; subst hs; exact inv_requestBegin h
  | goroutine k =>
    simp only [Step.apply, Option.some.injEq] at hs; subst hs; exact inv_goroutine k h
  | testingReset =>
    obtain ⟨s2, h1, h2, _⟩ := TestingReset_spec h
    simp only [Step.apply, h1, Option.some.injEq] at hs
    subst hs; exact h2
  | inProgress =>
    simp only [Step.apply, Option.some.injEq] at hs; subst hs; exact inv_catchSignals h
  | requested =>
    simp only [Step.apply, Option.some.injEq] at hs; subst hs; exact inv_catchSignals h
  | context =>
    simp only [Step.apply, Option.some.injEq] at hs; subst hs; exact inv_catchSignals h
  | timerFires i =>
    simp only [Step.apply, Option.some.injEq] at hs; subst hs; exact inv_timerFires i h
  | signalBegin sig =>
    simp only [Step.apply, Option.some.injEq] at hs; subst hs; exact inv_signalBegin sig h
  | setSignals sigs =>
    simp only [Step.apply, Option.some.injEq] at hs; subst hs; exact inv_setSignals sigs h

/-- No step blocks or panics in a state satisfying the invariant. -/
theorem step_total {s : State} (st : Step) (h : Inv s) : ∃ s1, st.apply s = some s1 := by
  cases st with
  | testingReset =>
    obtain ⟨s2, h1, _⟩ := TestingReset_spec h
    exact ⟨s2, h1⟩
  | _ => exact ⟨_, rfl⟩

theorem runSteps_inv (steps : List Step) {s : State} (h : Inv s) :
    ∃ s1, runSteps steps s = some s1 ∧ Inv s1 := by
  induction steps generalizing s with
  | nil => exact ⟨s, rfl, h⟩
  | cons st rest ih =>
    obtain ⟨s2, h2⟩ := step_total st h
    obtain ⟨s3, h3, h4⟩ := ih (inv_step st h h2)
    exact ⟨s3, by simp [runSteps, h2, h3], h4⟩

/-! ## Goroutines run to completion -/

theorem callFn_pending (f : Fn) (s : State) : (callFn f s).pending = s.pending := by
  cases f <;> rfl

theorem callFn_clear (f : Fn) (s : State) (p : List Fn) :
    { callFn f { s with pending := p } with pending := [] } =
      callFn f { s with pending := [] } := by
  cases f <;> rfl

theorem perm_cons_eraseIdx {α : Type} {l : List α} {i : Nat} {x : α} (h : l[i]? = some x) :
    (x :: l.eraseIdx i).Perm l := by
  induction l generalizing i with
  | nil => simp at h
  | cons y ys ih =>
    cases i with
    | zero =>
      simp only [List.getElem?_cons_zero, Option.some.injEq] at h
      subst h
      exact List.Perm.refl _
    | succ j =>
      simp only [List.getElem?_cons_succ] at h
      simp only [List.eraseIdx_cons_succ]
      exact (List.Perm.swap y x _).trans ((ih h).cons y)

theorem iterate_goroutine_zero (n : Nat) (s : State) (hn : s.pending.length = n) :
    Nat.iterate (goroutine 0) n s =
      s.pending.foldl (fun st f => callFn f st) { s with pending := [] } := by
  induction n generalizing s with
  | zero =>
    have hp : s.pending = [] := List.length_eq_zero.1 hn
    simp only [Function.iterate_zero, id_eq, hp, List.foldl_nil]
    cases s
    simp only at hp
    subst hp
    rfl
  | succ m ih =>
    cases hp : s.pending with
    | nil => rw [hp] at hn; simp at hn
    | cons f fs =>
      have hg : goroutine 0 s = callFn f { s with pending := fs } := by
        unfold goroutine
        rw [hp]
        simp
      rw [Function.iterate_succ_apply, hg, ih]
      · rw [callFn_pending, callFn_clear]
        rfl
      · rw [callFn_pending]
        rw [hp] at hn
        simpa using hn

theorem pick_perm {α : Type} (sched : List Nat) (l : List α) : (pick sched l).Perm l := by
  induction sched generalizing l with
  | nil => cases l <;> exact List.Perm.refl _
  | cons k ks ih =>
    cases l with
    | nil => exact List.Perm.refl _
    | cons x xs =>
      have hlt : k % (x :: xs).length < (x :: xs).length := Nat.mod_lt _ (by simp)
      have hget : (x :: xs)[k % (x :: xs).length]? =
          some ((x :: xs).getD (k % (x :: xs).length) x) := by
        simp only [List.getD_eq_getElem?_getD, List.getElem?_eq_getElem hlt, Option.getD_some]
      unfold pick
      exact ((ih _).cons _).trans (perm_cons_eraseIdx hget)

theorem eraseIdx_map_comm {α β : Type} (g : α → β) (l : List α) (i : Nat) :
    (l.map g).eraseIdx i = (l.eraseIdx i).map g := by
  induction l generalizing i with
  | nil => rfl
  | cons x xs ih =>
    cases i with
    | zero => rfl
    | succ j => simp only [List.map_cons, List.eraseIdx_cons_succ, ih]

theorem getD_map_comm {α β : Type} (g : α → β) (l : List α) (i : Nat) (d : α) :
    (l.map g).getD i (g d) = g (l.getD i d) := by
  induction l generalizing i with
  | nil => rfl
  | cons x xs ih =>
    cases i with
    | zero => rfl
    | succ j => simp

theorem pick_map {α β : Type} (g : α → β) (sched : List Nat) (l : List α) :
    pick sched (l.map g) = (pick sched l).map g := by
  induction sched generalizing l with
  | nil => cases l <;> rfl
  | cons k ks ih =>
    cases l with
    | nil => rfl
    | cons x xs =>
      simp only [List.map_cons, pick, List.length_cons, List.length_map]
      rw [← List.map_cons, eraseIdx_map_comm, ih, getD_map_comm]

/-- Waiting for the goroutines calls every started function once, in the order
picked by the scheduler. -/
theorem waitGoroutines_eq (sched : List Nat) (s : State) :
    waitGoroutines sched s =
      (pick sched s.pending).foldl (fun st f => callFn f st) { s with pending := [] } := by
  induction sched generalizing s with
  | nil =>
    have hp : pick [] s.pending = s.pending := by cases s.pending <;> rfl
    rw [hp]
    exact iterate_goroutine_zero _ s rfl
  | cons k ks ih =>
    unfold waitGoroutines
    cases hp : s.pending with
    | nil =>
      rw [if_pos rfl]
      cases s
      simp only at hp
      subst hp
      rfl
    | cons x xs =>
      rw [if_neg (by simp)]
      have hg : goroutine k s = callFn ((x :: xs).getD (k % (x :: xs).length) x)
          { s with pending := (x :: xs).eraseIdx (k % (x :: xs).length) } := by
        unfold goroutine
        rw [hp]
      rw [ih, hg, callFn_pending, callFn_clear]
      rfl

theorem waitGoroutines_spec (sched : List Nat) (s : State) :
    ∃ order : List Fn, order.Perm s.pending ∧
      waitGoroutines sched s =
        order.foldl (fun st f => callFn f st) { s with pending := [] } :=
  ⟨pick sched s.pending, pick_perm sched s.pending, waitGoroutines_eq sched s⟩

theorem foldl_callFn_fields (order : List Fn) (s : State) :
    let s1 := order.foldl (fun st f => callFn f st) s
    s1.log = s.log ++ order.map Event.called ∧ s1.pending = s.pending ∧
    s1.shutdownFuncs = s.shutdownFuncs ∧ s1.shutdownRequested = s.shutdownRequested ∧
    s1.watchdogs = s.watchdogs ∧ s1.testingResetWG = s.testingResetWG ∧
    s1.testingResetC = s.testingResetC ∧ s1.shutdownCtx = s.shutdownCtx ∧
    s1.shutdownC = s.shutdownC ∧ s1.once = s.once ∧ s1.listening = s.listening ∧
    s1.Signals = s.Signals ∧ s1.past = s.past ∧ s1.closed = s.closed ∧ s1.fresh = s.fresh ∧
    (∀ c, c ∈ s1.cancelled ↔ c ∈ s.cancelled ∨ Fn.cancel c ∈ order) := by
  induction order generalizing s with
  | nil => simp
  | cons f fs ih =>
    have h := ih (callFn f s)
    simp only [List.foldl_cons] at h ⊢
    obtain ⟨h1, h2, h3, h4, h5, h6, h7, h8, h9, h10, h11, h12, h13, h14, h15, h16⟩ := h
    cases f with
    | user u =>
      refine ⟨?_, h2, h3, h4, h5, h6, h7, h8, h9, h10, h11, h12, h13, h14, h15, ?_⟩
      · rw [h1]; simp [callFn]
      · intro c; rw [h16 c]; simp [callFn]
    | cancel d =>
      refine ⟨?_, h2, h3, h4, h5, h6, h7, h8, h9, h10, h11, h12, h13, h14, h15, ?_⟩
      · rw [h1]; simp [callFn]
      · intro c; rw [h16 c]; simp [callFn]
        constructor
        · rintro ((h | h) | h)
          · exact Or.inr (Or.inl h)
          · exact Or.inl h
          · exact Or.inr (Or.inr h)
        · rintro (h | h | h)
          · exact Or.inl (Or.inr h)
          · exact Or.inl (Or.inl h)
          · exact Or.inr h

theorem waitGoroutines_pending (sched : List Nat) (s : State) :
    (waitGoroutines sched s).pending = [] := by
  obtain ⟨order, _, heq⟩ := waitGoroutines_spec sched s
  rw [heq]
  exact (foldl_callFn_fields order _).2.1

theorem inv_waitGoroutines (sched : List Nat) {s : State} (h : Inv s) :
    Inv (waitGoroutines sched s) := by
  induction sched generalizing s with
  | nil =>
    unfold waitGoroutines
    generalize s.pending.length = n
    induction n generalizing s with
    | zero => exact h
    | succ m ih => rw [Function.iterate_succ_apply]; exact ih (inv_goroutine 0 h)
  | cons k ks ih =>
    unfold waitGoroutines
    split
    · exact h
    · exact ih (inv_goroutine k h)

theorem inv_RequestShutdown (sched : List Nat) {s : State} (h : Inv s) :
    Inv (RequestShutdown sched s) := by
  unfold RequestShutdown
  split
  · exact inv_requestBegin h
  · exact inv_waitGoroutines sched (inv_requestBegin h)

theorem RequestShutdown_pending (sched : List Nat) {s : State} (h : s.pending = []) :
    (RequestShutdown sched s).pending = [] := by
  unfold RequestShutdown
  split
  · rename_i hr
    simp [requestBegin, hr, h]
  · exact waitGoroutines_pending sched _

theorem inv_signal (sig : Nat) (sched : List Nat) {s : State} (h : Inv s) :
    Inv (signal sig sched s) := by
  unfold signal
  cases hl : s.listening with
  | none => exact h
  | some subs =>
    by_cases hs : sig ∈ subs
    · simp only [hs, if_true]
      apply inv_RequestShutdown
      exact ⟨h.chan, h.ctx_lt, h.resetC_lt, h.cancelled_lt, h.closed_lt, h.pending_lt, h.funcs_lt,
        h.resetC_open, h.armed_chan, h.wg, h.idle, h.triggered, h.past_ok, h.expired_total⟩
    · simp only [hs, if_false]
      exact h

theorem catchSignals_pending (s : State) : (catchSignals s).pending = s.pending := by
  unfold catchSignals; split <;> rfl

theorem quiet_init : Quiet init := ⟨inv_init, rfl⟩

theorem quiet_exec {s : State} (o : Op) (h : Quiet s) : ∃ s1, o.exec s = some s1 ∧ Quiet s1 := by
  obtain ⟨hi, hp⟩ := h
  cases o with
  | RegisterCallback f =>
    refine ⟨_, rfl, inv_RegisterCallback f hi, ?_⟩
    cases f with
    | none => simpa [RegisterCallback, catchSignals_pending] using hp
    | some k =>
      show (catchSignals s).pending = []
      rw [catchSignals_pending]; exact hp
  | RequestShutdown sched =>
    exact ⟨_, rfl, inv_RequestShutdown sched hi, RequestShutdown_pending sched hp⟩
  | TestingReset =>
    obtain ⟨s2, h1, h2, h3⟩ := TestingReset_spec hi
    exact ⟨s2, h1, h2, by rw [h3.2.2.2.2.2.1]; exact hp⟩
  | InProgress =>
    exact ⟨_, rfl, inv_catchSignals hi, by
      show (catchSignals s).pending = []
      rw [catchSignals_pending]; exact hp⟩
  | Requested =>
    exact ⟨_, rfl, inv_catchSignals hi, by
      show (catchSignals s).pending = []
      rw [catchSignals_pending]; exact hp⟩
  | Context =>
    exact ⟨_, rfl, inv_catchSignals hi, by
      show (catchSignals s).pending = []
      rw [catchSignals_pending]; exact hp⟩
  | timerFires i =>
    refine ⟨_, rfl, inv_timerFires i hi, ?_⟩
    unfold timerFires
    split
    · split
      · exact hp
      · exact hp
    · exact hp
  | signal sig sched =>
    refine ⟨_, rfl, inv_signal sig sched hi, ?_⟩
    unfold signal
    split
    · split
      · exact RequestShutdown_pending sched hp
      · exact hp
    · exact hp
  | setSignals sigs => exact ⟨_, rfl, inv_setSignals sigs hi, hp⟩

/-- Every sequence of completed operations runs through, and ends in a quiet state. -/
theorem quiet_run (ops : List Op) {s : State} (h : Quiet s) :
    ∃ s1, run ops s = some s1 ∧ Quiet s1 := by
  induction ops generalizing s with
  | nil => exact ⟨s, rfl, h⟩
  | cons o rest ih =>
    obtain ⟨s2, h2, hq⟩ := quiet_exec o h
    obtain ⟨s3, h3, h4⟩ := ih hq
    exact ⟨s3, by simp [run, h2, h3], h4⟩

/-! ## A completed operation is a sequence of steps -/

theorem runSteps_append (a b : List Step) (s : State) :
    runSteps (a ++ b) s = (runSteps a s).bind (runSteps b) := by
  induction a generalizing s with
  | nil => rfl
  | cons st rest ih =>
    simp only [List.cons_append, runSteps]
    cases st.apply s with
    | none => rfl
    | some s1 => simp only [Option.some_bind]; exact ih s1

theorem iterate_as_steps (n : Nat) (s : State) :
    runSteps (List.replicate n (Step.goroutine 0)) s = some (Nat.iterate (goroutine 0) n s) := by
  induction n generalizing s with
  | zero => rfl
  | succ m ih =>
    rw [List.replicate_succ, Function.iterate_succ_apply]
    simp only [runSteps, Step.apply, Option.some_bind]
    exact ih (goroutine 0 s)

theorem waitGoroutines_as_steps (sched : List Nat) (s : State) :
    ∃ steps, runSteps steps s = some (waitGoroutines sched s) := by
  induction sched generalizing s with
  | nil => exact ⟨_, iterate_as_steps s.pending.length s⟩
  | cons k ks ih =>
    unfold waitGoroutines
    split
    · exact ⟨[], rfl⟩
    · obtain ⟨steps, h⟩ := ih (goroutine k s)
      exact ⟨Step.goroutine k :: steps, by simpa [runSteps, Step.apply] using h⟩

theorem RequestShutdown_as_steps (sched : List Nat) (s : State) :
    ∃ steps, runSteps (Step.requestBegin :: steps) s = some (RequestShutdown sched s) := by
  unfold RequestShutdown
  split
  · exact ⟨[], rfl⟩
  · obtain ⟨steps, h⟩ := waitGoroutines_as_steps sched (requestBegin s)
    exact ⟨steps, by simpa [runSteps, Step.apply] using h⟩

/-- Every completed operation is a sequence of atomic steps. -/
theorem exec_as_steps (o : Op) (s : State) : ∃ steps, runSteps steps s = o.exec s := by
  cases o with
  | RegisterCallback f => exact ⟨[Step.registerCallback f], rfl⟩
  | RequestShutdown sched =>
    obtain ⟨steps, h⟩ := RequestShutdown_as_steps sched s
    exact ⟨_, h⟩
  | TestingReset =>
    refine ⟨[Step.testingReset], ?_⟩
    simp only [runSteps, Step.apply, Op.exec]
    cases TestingReset s <;> rfl
  | InProgress => exact ⟨[Step.inProgress], rfl⟩
  | Requested => exact ⟨[Step.requested], rfl⟩
  | Context => exact ⟨[Step.context], rfl⟩
  | timerFires i => exact ⟨[Step.timerFires i], rfl⟩
  | signal sig sched =>
    simp only [Op.exec, signal]
    cases hl : s.listening with
    | none => exact ⟨[], rfl⟩
    | some subs =>
      by_cases hs : sig ∈ subs
      · simp only [hs, if_true]
        obtain ⟨steps, h⟩ := RequestShutdown_as_steps sched { s with listening := none }
        refine ⟨Step.signalBegin sig :: steps, ?_⟩
        rw [← h]
        simp [runSteps, Step.apply, signalBegin, hl, hs]
      · simp only [hs, if_false]
        exact ⟨[], rfl⟩
  | setSignals sigs => exact ⟨[Step.setSignals sigs], rfl⟩

/-- Every sequence of completed operations is a sequence of atomic steps. -/
theorem run_as_steps (ops : List Op) (s : State) : ∃ steps, runSteps steps s = run ops s := by
  induction ops generalizing s with
  | nil => exact ⟨[], rfl⟩
  | cons o rest ih =>
    obtain ⟨st1, h1⟩ := exec_as_steps o s
    cases ho : o.exec s with
    | none =>
      refine ⟨st1, ?_⟩
      rw [h1, ho]
      simp [run, ho]
    | some s1 =>
      obtain ⟨st2, h2⟩ := ih s1
      refine ⟨st1 ++ st2, ?_⟩
      rw [runSteps_append, h1, ho]
      simp [run, ho, h2]

/-! ## Observers -/

theorem catchSignals_frame (s : State) :
    (catchSignals s).shutdownFuncs = s.shutdownFuncs ∧
    (catchSignals s).shutdownRequested = s.shutdownRequested ∧
    (catchSignals s).shutdownC = s.shutdownC ∧
    (catchSignals s).shutdownCtx = s.shutdownCtx ∧
    (catchSignals s).cancelled = s.cancelled ∧
    (catchSignals s).testingResetC = s.testingResetC ∧
    (catchSignals s).closed = s.closed ∧
    (catchSignals s).testingResetWG = s.testingResetWG ∧
    (catchSignals s).watchdogs = s.watchdogs ∧
    (catchSignals s).pending = s.pending ∧
    (catchSignals s).log = s.log ∧
    (catchSignals s).past = s.past ∧
    (catchSignals s).fresh = s.fresh ∧
    (catchSignals s).Signals = s.Signals := by
  unfold catchSignals
  split <;> exact ⟨rfl, rfl, rfl, rfl, rfl, rfl, rfl, rfl, rfl, rfl, rfl, rfl, rfl, rfl⟩

theorem observers_eq (s : State) :
    (Requested s).2 = decide (s.shutdownC ∈ s.cancelled) ∧
    doneClosed (InProgress s).1 (InProgress s).2 = decide (s.shutdownC ∈ s.cancelled) ∧
    doneClosed (Context s).1 (Context s).2 = decide (s.shutdownCtx ∈ s.cancelled) := by
  obtain ⟨_, _, h3, h4, h5, _⟩ := catchSignals_frame s
  simp only [Requested, InProgress, Context, doneClosed, h3, h4, h5, and_self]

/-- Between completed operations the three observers report the requested flag, and
the flag is set exactly when `RequestShutdown` has been entered in the lifecycle. -/
theorem quiet_observers {s : State} (h : Quiet s) :
    (Requested s).2 = s.shutdownRequested ∧
    doneClosed (InProgress s).1 (InProgress s).2 = s.shutdownRequested ∧
    doneClosed (Context s).1 (Context s).2 = s.shutdownRequested ∧
    (Event.requestShutdown ∈ s.log ↔ s.shutdownRequested = true) := by
  obtain ⟨hi, hp⟩ := h
  obtain ⟨h1, h2, h3⟩ := observers_eq s
  rw [h1, h2, h3, hi.chan]
  cases hr : s.shutdownRequested with
  | false =>
    obtain ⟨_, hc, _, _, _, hl⟩ := hi.idle hr
    simp [hc, hl]
  | true =>
    obtain ⟨hc, _, hl⟩ := hi.triggered hr
    rw [hp] at hc
    simp only [List.not_mem_nil, or_false] at hc
    simp [hc, hl]

theorem requestBegin_flag (s : State) : (requestBegin s).shutdownRequested = true := by
  by_cases h : s.shutdownRequested = true <;> simp [requestBegin, h]

theorem RequestShutdown_flag (sched : List Nat) (s : State) :
    (RequestShutdown sched s).shutdownRequested = true := by
  unfold RequestShutdown
  split
  · exact requestBegin_flag s
  · rw [waitGoroutines_eq, (foldl_callFn_fields _ _).2.2.2.1]
    exact requestBegin_flag s

/-! ## The watchdog and `Terminate` -/

theorem TestingReset_some {s s1 : State} (h : TestingReset s = some s1) :
    s1 = initGlobals
      { watchdogsAbort { s with closed := s.testingResetC :: s.closed } with
        past := s.past ++ [s.log], log := [] } := by
  unfold TestingReset at h
  split at h
  · cases h
  · dsimp only at h
    split at h
    · exact (Option.some.inj h).symm
    · cases h

theorem totalTerminations_append (s : State) (e : Event) (he : e ≠ Event.terminate)
    (s1 : State) (hp : s1.past = s.past) (hl : s1.log = s.log ++ [e]) :
    totalTerminations s1 = totalTerminations s := by
  unfold totalTerminations
  rw [hp, hl, terminations_append, if_neg he]
  rfl

theorem totalTerminations_requestBegin (s : State) :
    totalTerminations (requestBegin s) = totalTerminations s := by
  apply totalTerminations_append s Event.requestShutdown (by intro h; cases h)
  · by_cases h : s.shutdownRequested = true <;> simp [requestBegin, h]
  · by_cases h : s.shutdownRequested = true <;> simp [requestBegin, h]

theorem totalTerminations_callFn (f : Fn) (s : State) :
    totalTerminations (callFn f s) = totalTerminations s := by
  apply totalTerminations_append s (Event.called f) (by intro h; cases h)
  · cases f <;> rfl
  · cases f <;> rfl

theorem totalTerminations_goroutine (k : Nat) (s : State) :
    totalTerminations (goroutine k s) = totalTerminations s := by
  rcases goroutine_cases k s with ⟨_, he⟩ | ⟨i, f, _, he⟩
  · rw [he]
  · rw [he, totalTerminations_callFn]
    rfl

theorem totalTerminations_catchSignals (s : State) :
    totalTerminations (catchSignals s) = totalTerminations s := by
  obtain ⟨_, _, _, _, _, _, _, _, _, _, h11, h12, _⟩ := catchSignals_frame s
  unfold totalTerminations
  rw [h11, h12]

/-- Only the timer of a watchdog makes the number of calls of `Terminate` grow. -/
theorem step_terminations {s s1 : State} (st : Step) (h : st.apply s = some s1)
    (hst : ∀ i, st ≠ Step.timerFires i) : totalTerminations s1 = totalTerminations s := by
  cases st with
  | registerCallback f =>
    simp only [Step.apply, Option.some.injEq] at h; subst h
    cases f with
    | none => exact totalTerminations_catchSignals s
    | some k => exact totalTerminations_catchSignals s
  | requestBegin =>
    simp only [Step.apply, Option.some.injEq] at h; subst h
    exact totalTerminations_requestBegin s
  | goroutine k =>
    simp only [Step.apply, Option.some.injEq] at h; subst h
    exact totalTerminations_goroutine k s
  | testingReset =>
    simp only [Step.apply] at h
    rw [TestingReset_some h]
    show (List.map terminations (s.past ++ [s.log])).sum + terminations [] = _
    simp [totalTerminations, terminations]
  | inProgress =>
    simp only [Step.apply, Option.some.injEq] at h; subst h
    exact totalTerminations_catchSignals s
  | requested =>
    simp only [Step.apply, Option.some.injEq] at h; subst h
    exact totalTerminations_catchSignals s
  | context =>
    simp only [Step.apply, Option.some.injEq] at h; subst h
    exact totalTerminations_catchSignals s
  | timerFires i => exact absurd rfl (hst i)
  | signalBegin sig =>
    simp only [Step.apply, Option.some.injEq] at h; subst h
    unfold signalBegin
    split
    · split
      · exact totalTerminations_requestBegin _
      · rfl
    · rfl
  | setSignals sigs =>
    simp only [Step.apply, Option.some.injEq] at h; subst h
    rfl

theorem runSteps_terminations (steps : List Step) {s s1 : State}
    (h : runSteps steps s = some s1) (hst : ∀ i, Step.timerFires i ∉ steps) :
    totalTerminations s1 = totalTerminations s := by
  induction steps generalizing s with
  | nil =>
    simp only [runSteps, Option.some.injEq] at h
    rw [h]
  | cons st rest ih =>
    simp only [runSteps] at h
    cases h2 : st.apply s with
    | none => rw [h2] at h; cases h
    | some s2 =>
      rw [h2] at h
      have h3 := ih h (fun i hi => hst i (List.mem_cons_of_mem _ hi))
      rw [h3]
      exact step_terminations st h2 (fun i hi => hst i (hi ▸ List.mem_cons_self _ _))

/-- The timer of an armed watchdog calls `Terminate` once and the watchdog is then
expired. -/
theorem timerFires_armed {s : State} (i : Nat) (w : Watchdog)
    (hw : s.watchdogs[i]? = some w) (ha : w.status = WStatus.armed) :
    (timerFires i s).log = s.log ++ [Event.terminate] ∧
    (timerFires i s).past = s.past ∧
    (timerFires i s).watchdogs[i]? = some { w with status := WStatus.expired } := by
  have hlt : i < s.watchdogs.length := by
    rcases Nat.lt_or_ge i s.watchdogs.length with h | h
    · exact h
    · rw [List.getElem?_eq_none h] at hw; cases hw
  unfold timerFires
  rw [hw]
  simp only [ha, if_true]
  refine ⟨trivial, trivial, ?_⟩
  rw [List.getElem?_set_self hlt]

theorem timerFires_idle {s : State} (i : Nat) (h : armedCount s = 0) : timerFires i s = s := by
  unfold timerFires
  cases hw : s.watchdogs[i]? with
  | none => rfl
  | some w =>
    have hmem : w ∈ s.watchdogs := List.getElem?_mem hw
    have hna := List.countP_eq_zero.1 h w hmem
    simp only [decide_eq_true_eq] at hna
    simp only [hna, if_false]

/-- One step moves a watchdog only out of `armed`: into `expired` when its timer
fires, which calls `Terminate` once, and into `aborted` by `TestingReset`, which
does not call `Terminate`. -/
theorem watchdog_step {s s1 : State} (st : Step) (h : st.apply s = some s1) (i : Nat)
    (w : Watchdog) (hw : s.watchdogs[i]? = some w) :
    ∃ w1, s1.watchdogs[i]? = some w1 ∧ w1.resetC = w.resetC ∧
      (w1.status = w.status ∨
        (w.status = WStatus.armed ∧ w1.status = WStatus.expired ∧ st = Step.timerFires i ∧
          totalTerminations s1 = totalTerminations s + 1) ∨
        (w.status = WStatus.armed ∧ w1.status = WStatus.aborted ∧ st = Step.testingReset ∧
          totalTerminations s1 = totalTerminations s)) := by
  have hsame : ∀ t : State, t.watchdogs = s.watchdogs →
      ∃ w1, t.watchdogs[i]? = some w1 ∧ w1.resetC = w.resetC ∧
        (w1.status = w.status ∨
          (w.status = WStatus.armed ∧ w1.status = WStatus.expired ∧ st = Step.timerFires i ∧
            totalTerminations t = totalTerminations s + 1) ∨
          (w.status = WStatus.armed ∧ w1.status = WStatus.aborted ∧ st = Step.testingReset ∧
            totalTerminations t = totalTerminations s)) := by
    intro t ht
    exact ⟨w, by rw [ht, hw], rfl, Or.inl rfl⟩
  have hlt : i < s.watchdogs.length := by
    rcases Nat.lt_or_ge i s.watchdogs.length with h | h
    · exact h
    · rw [List.getElem?_eq_none h] at hw; cases hw
  cases st with
  | registerCallback f =>
    simp only [Step.apply, Option.some.injEq] at h; subst h
    apply hsame
    cases f <;> exact (catchSignals_frame s).2.2.2.2.2.2.2.2.1
  | requestBegin =>
    simp only [Step.apply, Option.some.injEq] at h; subst h
    exact ⟨w, by
      by_cases hr : s.shutdownRequested = true
      · simp [requestBegin, hr, hw]
      · simp only [requestBegin, hr, Bool.false_eq_true, if_false]
        rw [List.getElem?_append_left hlt, hw], rfl, Or.inl rfl⟩
  | goroutine k =>
    simp only [Step.apply, Option.some.injEq] at h; subst h
    apply hsame
    rcases goroutine_cases k s with ⟨_, he⟩ | ⟨j, f, _, he⟩
    · rw [he]
    · rw [he]; cases f <;> rfl
  | testingReset =>
    simp only [Step.apply] at h
    have htot := step_terminations Step.testingReset h (by intro j hj; cases hj)
    rw [TestingReset_some h] at htot ⊢
    show ∃ w1, (List.map _ s.watchdogs)[i]? = some w1 ∧ _
    rw [List.getElem?_map, hw]
    by_cases ho : observesReset (s.testingResetC :: s.closed) w = true
    · refine ⟨{ w with status := WStatus.aborted }, by simp [ho], rfl, Or.inr (Or.inr ?_)⟩
      refine ⟨?_, rfl, rfl, htot⟩
      simp only [observesReset, Bool.and_eq_true, decide_eq_true_eq] at ho
      exact ho.1
    · exact ⟨w, by simp [ho], rfl, Or.inl rfl⟩
  | inProgress =>
    simp only [Step.apply, Option.some.injEq] at h; subst h
    exact hsame _ (catchSignals_frame s).2.2.2.2.2.2.2.2.1
  | requested =>
    simp only [Step.apply, Option.some.injEq] at h; subst h
    exact hsame _ (catchSignals_frame s).2.2.2.2.2.2.2.2.1
  | context =>
    simp only [Step.apply, Option.some.injEq] at h; subst h
    exact hsame _ (catchSignals_frame s).2.2.2.2.2.2.2.2.1
  | timerFires j =>
    simp only [Step.apply, Option.some.injEq] at h; subst h
    by_cases hji : j = i
    · subst hji
      by_cases ha : w.status = WStatus.armed
      · obtain ⟨h1, h2, h3⟩ := timerFires_armed j w hw ha
        refine ⟨_, h3, rfl, Or.inr (Or.inl ⟨ha, rfl, rfl, ?_⟩)⟩
        unfold totalTerminations
        rw [h1, h2, terminations_append]
        simp only [if_true]
        omega
      · apply hsame
        unfold timerFires
        rw [hw]
        simp only [ha, if_false]
    · refine ⟨w, ?_, rfl, Or.inl rfl⟩
      unfold timerFires
      cases hv : s.watchdogs[j]? with
      | none => exact hw
      | some v =>
        by_cases ha : v.status = WStatus.armed
        · simp only [ha, if_true]
          rw [List.getElem?_set_ne hji]
          exact hw
        · simp only [ha, if_false]
          exact hw
  | signalBegin sig =>
    simp only [Step.apply, Option.some.injEq] at h; subst h
    refine ⟨w, ?_, rfl, Or.inl rfl⟩
    unfold signalBegin
    split
    · split
      · by_cases hr : s.shutdownRequested = true
        · simp [requestBegin, hr, hw]
        · simp only [requestBegin, hr, Bool.false_eq_true, if_false]
          rw [List.getElem?_append_left hlt, hw]
      · exact hw
    · exact hw
  | setSignals sigs =>
    simp only [Step.apply, Option.some.injEq] at h; subst h
    exact hsame _ rfl

theorem terminations_append_called (l : List Event) (order : List Fn) :
    terminations (l ++ order.map Event.called) = terminations l := by
  unfold terminations
  rw [List.count_append]
  have : List.count Event.terminate (order.map Event.called) = 0 := by
    rw [List.count_eq_zero]
    intro hm
    obtain ⟨f, _, hf⟩ := List.mem_map.1 hm
    cases hf
  omega

theorem RequestShutdown_log (sched : List Nat) (s : State) :
    terminations (RequestShutdown sched s).log = terminations s.log ∧
    (RequestShutdown sched s).past = s.past := by
  have hb : terminations (requestBegin s).log = terminations s.log ∧
      (requestBegin s).past = s.past := by
    by_cases h : s.shutdownRequested = true <;> simp [requestBegin, h, terminations_append]
  unfold RequestShutdown
  split
  · exact hb
  · rw [waitGoroutines_eq]
    obtain ⟨h1, _, _, _, _, _, _, _, _, _, _, _, h13, _⟩ := foldl_callFn_fields
      (pick sched (requestBegin s).pending) { requestBegin s with pending := [] }
    simp only at h1 h13
    rw [h1, h13, terminations_append_called]
    exact hb

theorem run_quiet {ops : List Op} {s : State} (h : run ops init = some s) : Quiet s := by
  obtain ⟨s1, h1, hq⟩ := quiet_run ops quiet_init
  rw [h] at h1
  cases h1
  exact hq

theorem armed_fires {s : State} (h : Inv s) (i : Nat) (w : Watchdog)
    (hw : s.watchdogs[i]? = some w) (ha : w.status = WStatus.armed) :
    terminations (timerFires i s).log = 1 ∧
    (timerFires i s).watchdogs[i]? = some { w with status := WStatus.expired } := by
  obtain ⟨h1, _, h3⟩ := timerFires_armed i w hw ha
  refine ⟨?_, h3⟩
  have hpos : 0 < armedCount s := by
    unfold armedCount
    rw [List.countP_pos_iff]
    exact ⟨w, List.getElem?_mem hw, by simp [ha]⟩
  have hreq : s.shutdownRequested = true := by
    cases hr : s.shutdownRequested with
    | true => rfl
    | false => have := (h.idle hr).2.2.2.1; omega
  have h2 := (h.triggered hreq).2.1
  rw [h1, terminations_append]
  simp only [if_true]
  omega

/-- Effect of `RegisterCallback` on every component of the state. -/
theorem RegisterCallback_frame (f : Option Nat) (s : State) :
    (RegisterCallback f s).shutdownFuncs =
      (match f with
        | none => s.shutdownFuncs
        | some k => s.shutdownFuncs ++ [Fn.user k]) ∧
    (RegisterCallback f s).shutdownRequested = s.shutdownRequested ∧
    (RegisterCallback f s).shutdownC = s.shutdownC ∧
    (RegisterCallback f s).shutdownCtx = s.shutdownCtx ∧
    (RegisterCallback f s).cancelled = s.cancelled ∧
    (RegisterCallback f s).testingResetC = s.testingResetC ∧
    (RegisterCallback f s).closed = s.closed ∧
    (RegisterCallback f s).testingResetWG = s.testingResetWG ∧
    (RegisterCallback f s).watchdogs = s.watchdogs ∧
    (RegisterCallback f s).pending = s.pending ∧
    (RegisterCallback f s).log = s.log ∧
    (RegisterCallback f s).past = s.past ∧
    (RegisterCallback f s).fresh = s.fresh ∧
    (RegisterCallback f s).Signals = s.Signals ∧
    (RegisterCallback f s).once = (catchSignals s).once ∧
    (RegisterCallback f s).listening = (catchSignals s).listening ∧
    (view (RegisterCallback f s)).requested = (view s).requested ∧
    (view (RegisterCallback f s)).inProgress = (view s).inProgress ∧
    (view (RegisterCallback f s)).context = (view s).context := by
  obtain ⟨h1, h2, h3, h4, h5, h6, h7, h8, h9, h10, h11, h12, h13, h14⟩ := catchSignals_frame s
  have hfr : (RegisterCallback f s).shutdownC = s.shutdownC ∧
      (RegisterCallback f s).shutdownCtx = s.shutdownCtx ∧
      (RegisterCallback f s).cancelled = s.cancelled := by
    cases f <;> exact ⟨h3, h4, h5⟩
  have hv : (view (RegisterCallback f s)).requested = (view s).requested ∧
      (view (RegisterCallback f s)).inProgress = (view s).inProgress ∧
      (view (RegisterCallback f s)).context = (view s).context := by
    obtain ⟨a1, a2, a3⟩ := observers_eq (RegisterCallback f s)
    obtain ⟨b1, b2, b3⟩ := observers_eq s
    simp only [view, a1, a2, a3, b1, b2, b3, hfr.1, hfr.2.1, hfr.2.2, and_self]
  cases f with
  | none => exact ⟨h1, h2, h3, h4, h5, h6, h7, h8, h9, h10, h11, h12, h13, h14, rfl, rfl, hv⟩
  | some k =>
    refine ⟨?_, h2, h3, h4, h5, h6, h7, h8, h9, h10, h11, h12, h13, h14, rfl, rfl, hv⟩
    show (catchSignals s).shutdownFuncs ++ [Fn.user k] = s.shutdownFuncs ++ [Fn.user k]
    rw [h1]

theorem repeated_request (sched : List Nat) (s : State) (h : s.shutdownRequested = true) :
    RequestShutdown sched s =
      { s with shutdownFuncs := [], log := s.log ++ [Event.requestShutdown] } := by
  unfold RequestShutdown requestBegin
  simp only [h, if_true]

/-! ## The first `RequestShutdown` of a lifecycle -/

theorem first_request (sched : List Nat) (s : State) (hr : s.shutdownRequested = false)
    (hp : s.pending = []) :
    (RequestShutdown sched s).log =
      s.log ++ [Event.requestShutdown] ++ (pick sched s.shutdownFuncs).map Event.called ∧
    (RequestShutdown sched s).shutdownFuncs = [] ∧
    (RequestShutdown sched s).watchdogs =
      s.watchdogs ++ [{ resetC := s.testingResetC, status := WStatus.armed }] ∧
    (RequestShutdown sched s).testingResetWG = s.testingResetWG + 1 ∧
    (RequestShutdown sched s).shutdownCtx = s.shutdownCtx ∧
    (RequestShutdown sched s).shutdownC = s.shutdownC ∧
    (∀ c, c ∈ (RequestShutdown sched s).cancelled ↔
      c ∈ s.cancelled ∨ Fn.cancel c ∈ s.shutdownFuncs) := by
  have hb : requestBegin s =
      { s with
        shutdownFuncs := []
        shutdownRequested := true
        log := s.log ++ [Event.requestShutdown]
        testingResetWG := s.testingResetWG + 1
        watchdogs := s.watchdogs ++ [{ resetC := s.testingResetC, status := WStatus.armed }]
        pending := s.shutdownFuncs } := by
    simp [requestBegin, hr, hp]
  have he : RequestShutdown sched s = waitGoroutines sched (requestBegin s) := by
    simp [RequestShutdown, hr]
  rw [he, waitGoroutines_eq]
  obtain ⟨h1, _, h3, _, h5, h6, _, h8, h9, _, _, _, _, _, _, h16⟩ := foldl_callFn_fields
    (pick sched (requestBegin s).pending) { requestBegin s with pending := [] }
  simp only at h1 h3 h5 h6 h8 h9 h16
  rw [h1, h3, h5, h6, h8, h9]
  rw [hb] at h16 ⊢
  refine ⟨rfl, rfl, rfl, rfl, rfl, rfl, ?_⟩
  intro c
  rw [h16 c]
  simp only
  rw [(pick_perm sched s.shutdownFuncs).mem_iff]

theorem userCalls_append (l m : List Event) : userCalls (l ++ m) = userCalls l ++ userCalls m := by
  simp [userCalls, List.filterMap_append]

theorem userCalls_users (us : List Nat) :
    userCalls ((us.map Fn.user).map Event.called) = us := by
  induction us with
  | nil => rfl
  | cons u rest ih =>
    simp only [List.map_cons, userCalls, List.filterMap_cons] at ih ⊢
    rw [ih]

theorem userCalls_registry (c : Nat) (us : List Nat) (sched : List Nat) :
    (userCalls ((pick sched (Fn.cancel c :: us.map Fn.user)).map Event.called)).Perm us := by
  have h1 := pick_perm sched (Fn.cancel c :: us.map Fn.user)
  have h2 : (userCalls ((pick sched (Fn.cancel c :: us.map Fn.user)).map Event.called)).Perm
      (userCalls ((Fn.cancel c :: us.map Fn.user).map Event.called)) :=
    (h1.map Event.called).filterMap _
  have h3 : userCalls ((Fn.cancel c :: us.map Fn.user).map Event.called) = us := by
    have := userCalls_users us
    simp only [List.map_cons, userCalls, List.filterMap_cons] at this ⊢
    exact this
  rw [h3] at h2
  exact h2

theorem run_append (a b : List Op) (s : State) :
    run (a ++ b) s = (run a s).bind (run b) := by
  induction a generalizing s with
  | nil => rfl
  | cons o rest ih =>
    simp only [List.cons_append, run]
    cases o.exec s with
    | none => rfl
    | some s1 => simp only [Option.some_bind]; exact ih s1

/-- Once shutdown is requested no call executes a user function any more. -/
theorem calls_after_trigger (calls : List Call) (s : State) (hr : s.shutdownRequested = true) :
    ∃ s1, run (calls.map Call.toOp) s = some s1 ∧ userCalls s1.log = userCalls s.log := by
  induction calls generalizing s with
  | nil => exact ⟨s, rfl, rfl⟩
  | cons c rest ih =>
    cases c with
    | RegisterCallback f =>
      have hfr := RegisterCallback_frame f s
      obtain ⟨s1, h1, h2⟩ := ih (RegisterCallback f s) (by rw [hfr.2.1]; exact hr)
      refine ⟨s1, ?_, ?_⟩
      · simpa [run, Call.toOp, Op.exec] using h1
      · rw [h2, hfr.2.2.2.2.2.2.2.2.2.2.1]
    | RequestShutdown sched =>
      obtain ⟨s1, h1, h2⟩ := ih (RequestShutdown sched s) (RequestShutdown_flag sched s)
      refine ⟨s1, ?_, ?_⟩
      · simpa [run, Call.toOp, Op.exec] using h1
      · rw [h2, repeated_request sched s hr]
        simp [userCalls_append, userCalls]

/-- Before the trigger: the user functions executed by a sequence of calls are those
of the registry and those registered before the first `RequestShutdown`, if
there is one, and none otherwise. -/
theorem calls_before_trigger (calls : List Call) (s : State) (c : Nat) (us : List Nat)
    (hr : s.shutdownRequested = false) (hp : s.pending = [])
    (hf : s.shutdownFuncs = Fn.cancel c :: us.map Fn.user) :
    ∃ s1, run (calls.map Call.toOp) s = some s1 ∧
      (userCalls s1.log).Perm
        (userCalls s.log ++ if hasRequest calls then us ++ registeredBefore calls else []) := by
  induction calls generalizing s us with
  | nil => exact ⟨s, rfl, by simp [hasRequest]⟩
  | cons cl rest ih =>
    cases cl with
    | RegisterCallback f =>
      have hfr := RegisterCallback_frame f s
      have hlog : (RegisterCallback f s).log = s.log := hfr.2.2.2.2.2.2.2.2.2.2.1
      have hpen : (RegisterCallback f s).pending = [] := by
        rw [hfr.2.2.2.2.2.2.2.2.2.1]; exact hp
      have hreq : (RegisterCallback f s).shutdownRequested = false := by
        rw [hfr.2.1]; exact hr
      cases f with
      | none =>
        obtain ⟨s1, h1, h2⟩ := ih (RegisterCallback none s) us hreq hpen
          (by rw [hfr.1]; exact hf)
        refine ⟨s1, ?_, ?_⟩
        · simpa [run, Call.toOp, Op.exec] using h1
        · rw [hlog] at h2
          simpa [hasRequest, registeredBefore] using h2
      | some k =>
        obtain ⟨s1, h1, h2⟩ := ih (RegisterCallback (some k) s) (us ++ [k]) hreq hpen
          (by rw [hfr.1, hf]; simp)
        refine ⟨s1, ?_, ?_⟩
        · simpa [run, Call.toOp, Op.exec] using h1
        · rw [hlog] at h2
          simpa [hasRequest, registeredBefore] using h2
    | RequestShutdown sched =>
      obtain ⟨s1, h1, h2⟩ := calls_after_trigger rest (RequestShutdown sched s)
        (RequestShutdown_flag sched s)
      refine ⟨s1, ?_, ?_⟩
      · simpa [run, Call.toOp, Op.exec] using h1
      · rw [h2, (first_request sched s hr hp).1, hf]
        simp only [hasRequest, if_true, registeredBefore, List.append_nil, userCalls_append]
        have hnil : userCalls [Event.requestShutdown] = [] := rfl
        rw [hnil, List.append_nil]
        exact (userCalls_registry c us sched).append_left _

/-! ## Lifecycles seen through `view` -/

theorem untriggered_init : Untriggered init [] :=
  ⟨rfl, rfl, rfl, by decide, rfl, rfl, rfl, rfl⟩

theorem untriggered_reset {s s1 : State} (h : Quiet s) (hs : TestingReset s = some s1) :
    Untriggered s1 [] := by
  obtain ⟨s2, h1, hi, hr, hf, hl, ha, hw, hp, _⟩ := TestingReset_spec h.1
  rw [hs] at h1
  cases h1
  exact ⟨hr, hf, hi.chan, (hi.idle hr).2.1, by rw [hp]; exact h.2, hl, ha, hw⟩

theorem untriggered_register {s : State} {us : List Nat} (h : Untriggered s us)
    (f : Option Nat) :
    Untriggered (RegisterCallback f s) (us ++ f.toList) := by
  obtain ⟨h1, h2, h3, h4, h5, _, _, h8, h9, h10, h11, _⟩ := RegisterCallback_frame f s
  refine ⟨by rw [h2]; exact h.flag, ?_, by rw [h3, h4]; exact h.chan,
    by rw [h4, h5]; exact h.notCancelled, by rw [h10]; exact h.pending, by rw [h11]; exact h.log,
    ?_, by rw [h8]; exact h.wg⟩
  · rw [h1, h4]
    cases f with
    | none => simpa using h.funcs
    | some k => simp [h.funcs]
  · unfold armedCount
    rw [h9]
    exact h.armed

theorem untriggered_registerAll {s : State} {us : List Nat} (h : Untriggered s us)
    (fs : List (Option Nat)) :
    Untriggered (registerAll fs s) (us ++ fs.reduceOption) := by
  induction fs generalizing s us with
  | nil => simpa [registerAll] using h
  | cons f rest ih =>
    have h1 := ih (untriggered_register h f)
    cases f with
    | none => simpa [registerAll, List.reduceOption_cons_of_none] using h1
    | some k => simpa [registerAll, List.reduceOption_cons_of_some] using h1

theorem view_untriggered {s : State} {us : List Nat} (h : Untriggered s us) :
    view s =
      { requested := false, inProgress := false, context := false, flag := false,
        registry := Role.broadcast :: us.map Role.user, armed := 0, waiting := 0,
        pending := [], events := [] } := by
  obtain ⟨h1, h2, h3⟩ := observers_eq s
  have hc : decide (s.shutdownCtx ∈ s.cancelled) = false := by simp [h.notCancelled]
  simp only [view, h1, h2, h3, h.chan, hc, h.flag, h.funcs, h.armed, h.wg, h.pending, h.log,
    List.map_cons, List.map_nil, List.map_map, Fn.role, if_true]
  rfl

/-- What the first `RequestShutdown` of a lifecycle does, in terms that do not
mention object numbers. -/
theorem view_first_request {s : State} {us : List Nat} (h : Untriggered s us)
    (sched : List Nat) :
    view (RequestShutdown sched s) =
      { requested := true, inProgress := true, context := true, flag := true,
        registry := [], armed := 1, waiting := 1, pending := [],
        events := REvent.requestShutdown ::
          (pick sched (Role.broadcast :: us.map Role.user)).map REvent.called } := by
  obtain ⟨g1, g2, g3, g4, g5, g6, g7⟩ := first_request sched s h.flag h.pending
  obtain ⟨h1, h2, h3⟩ := observers_eq (RequestShutdown sched s)
  have hc : decide (s.shutdownCtx ∈ (RequestShutdown sched s).cancelled) = true := by
    rw [decide_eq_true_eq, g7, h.funcs]
    exact Or.inr (List.mem_cons_self _ _)
  have hroles : s.shutdownFuncs.map (Fn.role s.shutdownCtx) =
      Role.broadcast :: us.map Role.user := by
    rw [h.funcs]
    simp only [List.map_cons, List.map_map, Fn.role, if_true]
    rfl
  have harmed : armedCount (RequestShutdown sched s) = 1 := by
    have := h.armed
    unfold armedCount at this ⊢
    rw [g3, List.countP_append, this]
    rfl
  have hev : (RequestShutdown sched s).log.map (Event.role s.shutdownCtx) =
      REvent.requestShutdown ::
        (pick sched (Role.broadcast :: us.map Role.user)).map REvent.called := by
    rw [g1, h.log, ← hroles, pick_map]
    simp only [List.nil_append, List.map_append, List.map_cons, List.map_nil, List.map_map,
      List.singleton_append, Event.role]
    rfl
  simp only [view, h1, h2, h3, g5, g6, h.chan, hc, RequestShutdown_flag, g2, harmed, g4, h.wg,
    RequestShutdown_pending sched h.pending, hev, List.map_nil]

/-! ## Goroutines in flight -/

theorem goroutine_frame (k : Nat) (s : State) :
    (goroutine k s).shutdownFuncs = s.shutdownFuncs ∧
    (goroutine k s).shutdownRequested = s.shutdownRequested ∧
    (goroutine k s).watchdogs = s.watchdogs ∧
    (goroutine k s).testingResetWG = s.testingResetWG ∧
    (goroutine k s).shutdownCtx = s.shutdownCtx := by
  rcases goroutine_cases k s with ⟨_, he⟩ | ⟨i, f, _, he⟩
  · rw [he]; exact ⟨rfl, rfl, rfl, rfl, rfl⟩
  · rw [he]; cases f <;> exact ⟨rfl, rfl, rfl, rfl, rfl⟩

/-- The requested flag after a sequence of public calls says whether `RequestShutdown`
has been called since the last `TestingReset`. -/
theorem public_flag (pops : List PublicOp) {s : State} (h : Quiet s) :
    ∃ s1, run (pops.map PublicOp.toOp) s = some s1 ∧ Quiet s1 ∧
      s1.shutdownRequested = requestedSince s.shutdownRequested pops := by
  induction pops generalizing s with
  | nil => exact ⟨s, rfl, h, rfl⟩
  | cons o rest ih =>
    obtain ⟨s2, h2, hq2⟩ := quiet_exec o.toOp h
    obtain ⟨s3, h3, hq3, hf3⟩ := ih hq2
    refine ⟨s3, by simp [run, h2, h3], hq3, ?_⟩
    rw [hf3]
    cases o with
    | RegisterCallback f =>
      simp only [PublicOp.toOp, Op.exec, Option.some.injEq] at h2
      rw [← h2, (RegisterCallback_frame f s).2.1]
      rfl
    | RequestShutdown sched =>
      simp only [PublicOp.toOp, Op.exec, Option.some.injEq] at h2
      rw [← h2, RequestShutdown_flag]
      rfl
    | TestingReset =>
      simp only [PublicOp.toOp, Op.exec] at h2
      obtain ⟨s4, h4, _, hflag, _⟩ := TestingReset_spec h.1
      rw [h2] at h4
      cases h4
      rw [hflag]
      rfl
    | InProgress =>
      simp only [PublicOp.toOp, Op.exec, Option.some.injEq] at h2
      rw [← h2]
      show requestedSince (catchSignals s).shutdownRequested rest = _
      rw [(catchSignals_frame s).2.1]
      rfl
    | Requested =>
      simp only [PublicOp.toOp, Op.exec, Option.some.injEq] at h2
      rw [← h2]
      show requestedSince (catchSignals s).shutdownRequested rest = _
      rw [(catchSignals_frame s).2.1]
      rfl
    | Context =>
      simp only [PublicOp.toOp, Op.exec, Option.some.injEq] at h2
      rw [← h2]
      show requestedSince (catchSignals s).shutdownRequested rest = _
      rw [(catchSignals_frame s).2.1]
      rfl

theorem observersAgree_of_quiet {s : State} (hq : Quiet s) : ObserversAgree s := by
  obtain ⟨h1, h2, h3, h4⟩ := quiet_observers hq
  refine ⟨by rw [h1, h2], by rw [h1, h3], by rw [h1, h4], ?_⟩
  intro sched
  have hq2 : Quiet (RequestShutdown sched s) :=
    ⟨inv_RequestShutdown sched hq.1, RequestShutdown_pending sched hq.2⟩
  obtain ⟨g1, g2, g3, _⟩ := quiet_observers hq2
  rw [g1, g2, g3]
  exact ⟨RequestShutdown_flag sched s, RequestShutdown_flag sched s,
    RequestShutdown_flag sched s⟩

theorem lifecycleStart_of_reset {s : State} (hq : Quiet s) :
    ∃ s1, TestingReset s = some s1 ∧ LifecycleStart s1 := by
  obtain ⟨s1, h1, hi, hflag, hfuncs, _, harmed, hwg, hpend, _⟩ := TestingReset_spec hq.1
  have hq1 : Quiet s1 := ⟨hi, by rw [hpend]; exact hq.2⟩
  have hu := untriggered_reset hq h1
  obtain ⟨o1, o2, o3, _⟩ := quiet_observers hq1
  refine ⟨s1, h1, by rw [o1, hflag], by rw [o2, hflag], by rw [o3, hflag], hflag,
    hfuncs, harmed, hwg, fun i => timerFires_idle i harmed, ?_, ?_⟩
  · rw [view_untriggered hu, view_untriggered untriggered_init]
  · intro fs sched
    rw [view_first_request (untriggered_registerAll hu fs) sched,
      view_first_request (untriggered_registerAll untriggered_init fs) sched]

/-! ## The claims -/

/-- C1: in the first lifecycle, and in a lifecycle started by `TestingReset` after any
history of completed operations, whatever sequence of `RegisterCallback` and
`RequestShutdown` calls is made and whatever the scheduler does, the user
functions executed in the lifecycle are, counted with multiplicity, exactly the
non-nil functions registered before the first `RequestShutdown` (none when
`RequestShutdown` is never called).  Functions registered later, in this
lifecycle or in an earlier one, are not among them. -/
theorem C1_callbacks_exactly_once (ops : List Op) (calls : List Call) :
    (∃ s, run (calls.map Call.toOp) init = some s ∧
      (userCalls s.log).Perm (expectedCalls calls)) ∧
    (∃ s, run (ops ++ Op.TestingReset :: calls.map Call.toOp) init = some s ∧
      (userCalls s.log).Perm (expectedCalls calls)) := by
  constructor
  · obtain ⟨s, h1, h2⟩ := calls_before_trigger calls init 2 [] rfl rfl rfl
    refine ⟨s, h1, ?_⟩
    simpa [expectedCalls, init, initGlobals, initContext, zeroState, userCalls] using h2
  · obtain ⟨r, hr, hq⟩ := quiet_run ops quiet_init
    obtain ⟨s0, h0, _, hflag, hfuncs, hlog, _, _, hpend, _⟩ := TestingReset_spec hq.1
    obtain ⟨s, h1, h2⟩ := calls_before_trigger calls s0 s0.shutdownCtx [] hflag
      (by rw [hpend]; exact hq.2) hfuncs
    refine ⟨s, ?_, ?_⟩
    · rw [run_append, hr]
      simp only [Option.some_bind, run, Op.exec, h0]
      exact h1
    · simpa [expectedCalls, hlog, userCalls] using h2

/-- C2: in every state reached by a sequence of completed operations (the public
functions, and also timer and signal events), and more generally in every state
reached by any interleaving of atomic steps in which no goroutine of
`RequestShutdown` is left running, `Requested()` is true iff the `InProgress()`
channel is closed iff `Context()` is cancelled iff `RequestShutdown` has been
entered in the current lifecycle, and after a further `RequestShutdown` has
returned all three report a requested shutdown; after a sequence of calls of
public functions the three answer yes exactly when the sequence has a
`RequestShutdown` after its last `TestingReset`. -/
theorem C2_observers_agree (ops : List Op) (pops : List PublicOp) (steps : List Step) :
    (∃ s, run ops init = some s ∧ ObserversAgree s) ∧
    (∃ s, run (pops.map PublicOp.toOp) init = some s ∧
      (Requested s).2 = requestedSince false pops ∧
      doneClosed (InProgress s).1 (InProgress s).2 = requestedSince false pops ∧
      doneClosed (Context s).1 (Context s).2 = requestedSince false pops) ∧
    (∃ s, runSteps steps init = some s ∧ (s.pending = [] → ObserversAgree s)) := by
  refine ⟨?_, ?_, ?_⟩
  · obtain ⟨s, hrun, hq⟩ := quiet_run ops quiet_init
    exact ⟨s, hrun, observersAgree_of_quiet hq⟩
  · obtain ⟨s, hrun, hq, hf⟩ := public_flag pops quiet_init
    obtain ⟨h1, h2, h3, _⟩ := quiet_observers hq
    exact ⟨s, hrun, by rw [h1, hf]; rfl, by rw [h2, hf]; rfl, by rw [h3, hf]; rfl⟩
  · obtain ⟨s, hrun, hi⟩ := runSteps_inv steps inv_init
    exact ⟨s, hrun, fun hp => observersAgree_of_quiet ⟨hi, hp⟩⟩

/-- C3 as the code has it: a `RequestShutdown` made when shutdown has already been
requested empties the callback registry and changes nothing else (the log only
records that the function was entered): the requested flag, the broadcast, the
watchdogs and the wait group stay as they are, no function is called and no
watchdog is started. -/
theorem C3_repeated_request (sched : List Nat) (s : State) (h : s.shutdownRequested = true) :
    RequestShutdown sched s =
      { s with shutdownFuncs := [], log := s.log ++ [Event.requestShutdown] } :=
  repeated_request sched s h

theorem C3_repeated_request_witness :
    (RequestShutdown [] init).shutdownRequested = true ∧
    RequestShutdown [1] (RequestShutdown [] init) =
      { RequestShutdown [] init with
        shutdownFuncs := [], log := (RequestShutdown [] init).log ++ [Event.requestShutdown] } :=
  ⟨rfl, C3_repeated_request [1] (RequestShutdown [] init) rfl⟩

/-- C3 as stated fails: a callback registered after the trigger is in the registry,
and the next `RequestShutdown` removes it. -/
theorem C3_counterexample :
    ∃ s, run [Op.RequestShutdown [], Op.RegisterCallback (some 7)] init = some s ∧
      s.shutdownRequested = true ∧ s.shutdownFuncs = [Fn.user 7] ∧
      (RequestShutdown [] s).shutdownFuncs = [] ∧
      (RequestShutdown [] s).shutdownFuncs ≠ s.shutdownFuncs :=
  ⟨_, rfl, rfl, rfl, rfl, by decide⟩

/-- C4 as the code has it: the return of `RequestShutdown` does not stop the watchdog.
In every state reached, by any interleaving of atomic steps, once shutdown has
been requested, so in particular after the triggering `RequestShutdown` has
returned with all callbacks finished, either one watchdog is still armed and
`Terminate` has not been called in the lifecycle, or none is armed and it has
been called once; a callback finishing never changes a watchdog; the timer of
an armed watchdog calls `Terminate` (once); no step other than the timer of a
watchdog calls `Terminate`; and `TestingReset` returns a state in which no
timer calls it any more. -/
theorem C4_terminate_only_by_timer (steps : List Step) (s : State)
    (hrun : runSteps steps init = some s) (hreq : s.shutdownRequested = true) :
    ((armedCount s = 1 ∧ terminations s.log = 0) ∨
      (armedCount s = 0 ∧ terminations s.log = 1)) ∧
    (∀ (t : State) (k : Nat), (goroutine k t).watchdogs = t.watchdogs) ∧
    (∀ i w, s.watchdogs[i]? = some w → w.status = WStatus.armed →
      terminations s.log = 0 ∧ terminations (timerFires i s).log = 1) ∧
    (∀ more s2, (∀ i, Step.timerFires i ∉ more) → runSteps more s = some s2 →
      totalTerminations s2 = totalTerminations s) ∧
    (∃ s2, TestingReset s = some s2 ∧ ∀ i, timerFires i s2 = s2) := by
  have hi : Inv s := by
    obtain ⟨s1, h1, hi⟩ := runSteps_inv steps inv_init
    rw [hrun] at h1
    cases h1
    exact hi
  have hsum := (hi.triggered hreq).2.1
  refine ⟨by omega, fun t k => (goroutine_frame k t).2.2.1, ?_, ?_, ?_⟩
  · intro i w hw ha
    have hfire := (armed_fires hi i w hw ha).1
    have hpos : 0 < armedCount s := by
      unfold armedCount
      rw [List.countP_pos_iff]
      exact ⟨w, List.getElem?_mem hw, by simp [ha]⟩
    exact ⟨by omega, hfire⟩
  · intro more s2 hst hrun2
    exact runSteps_terminations more hrun2 hst
  · obtain ⟨s2, h2, _, _, _, _, h0, _⟩ := TestingReset_spec hi
    exact ⟨s2, h2, fun i => timerFires_idle i h0⟩

theorem C4_terminate_only_by_timer_witness :
    runSteps [Step.registerCallback (some 1), Step.requestBegin, Step.goroutine 1,
        Step.goroutine 0] init =
      some (goroutine 0 (goroutine 1 (requestBegin (RegisterCallback (some 1) init)))) ∧
    (goroutine 0 (goroutine 1 (requestBegin (RegisterCallback (some 1) init)))).shutdownRequested
      = true ∧
    (goroutine 0 (goroutine 1 (requestBegin (RegisterCallback (some 1) init)))).pending = [] ∧
    (((armedCount (goroutine 0 (goroutine 1 (requestBegin (RegisterCallback (some 1) init))))
          = 1 ∧
        terminations
          (goroutine 0 (goroutine 1 (requestBegin (RegisterCallback (some 1) init)))).log = 0) ∨
      (armedCount (goroutine 0 (goroutine 1 (requestBegin (RegisterCallback (some 1) init))))
          = 0 ∧
        terminations
          (goroutine 0 (goroutine 1 (requestBegin (RegisterCallback (some 1) init)))).log
          = 1)) ∧
    (∀ (t : State) (k : Nat), (goroutine k t).watchdogs = t.watchdogs) ∧
    (∀ i w,
      (goroutine 0 (goroutine 1 (requestBegin (RegisterCallback (some 1) init)))).watchdogs[i]?
        = some w →
      w.status = WStatus.armed →
      terminations
          (goroutine 0 (goroutine 1 (requestBegin (RegisterCallback (some 1) init)))).log = 0 ∧
        terminations
          (timerFires i
            (goroutine 0 (goroutine 1 (requestBegin (RegisterCallback (some 1) init))))).log
          = 1) ∧
    (∀ more s2, (∀ i, Step.timerFires i ∉ more) →
      runSteps more (goroutine 0 (goroutine 1 (requestBegin (RegisterCallback (some 1) init))))
        = some s2 →
      totalTerminations s2 =
        totalTerminations
          (goroutine 0 (goroutine 1 (requestBegin (RegisterCallback (some 1) init))))) ∧
    (∃ s2,
      TestingReset (goroutine 0 (goroutine 1 (requestBegin (RegisterCallback (some 1) init))))
        = some s2 ∧
      ∀ i, timerFires i s2 = s2)) :=
  ⟨rfl, rfl, rfl,
    C4_terminate_only_by_timer
      [Step.registerCallback (some 1), Step.requestBegin, Step.goroutine 1, Step.goroutine 0]
      (goroutine 0 (goroutine 1 (requestBegin (RegisterCallback (some 1) init)))) rfl rfl⟩

/-- C4 as stated fails: after `RequestShutdown` has returned with every callback
finished, the timer of the watchdog fires and `Terminate` is called (this is what
`TestTerminate` expects). -/
theorem C4_counterexample :
    ∃ s s1, run [Op.RequestShutdown []] init = some s ∧ s.pending = [] ∧
      s.log = [Event.requestShutdown, Event.called (Fn.cancel 2)] ∧
      (Step.timerFires 0).apply s = some s1 ∧
      s1.log = [Event.requestShutdown, Event.called (Fn.cancel 2), Event.terminate] ∧
      totalTerminations s = 0 ∧ totalTerminations s1 = 1 :=
  ⟨_, _, rfl, rfl, rfl, rfl, rfl, by decide, by decide⟩

/-- C5: whatever the interleaving of steps, every call of `Terminate` is the expiry
of one watchdog (the calls are as many as the expired watchdogs; armed and
aborted ones have made none); each lifecycle, the current one and the past
ones, has at most one call; once shutdown is requested there is either one
armed watchdog and no call yet or no armed watchdog and one call; the timer
of an armed watchdog firing makes the call of the lifecycle, goroutines still
running or not; and a step moves a watchdog only from armed to expired (timer,
one call) or from armed to aborted (`TestingReset`, no call). -/
theorem C5_terminate_at_most_once (steps : List Step) :
    ∃ s, runSteps steps init = some s ∧
      terminations s.log ≤ 1 ∧ (∀ l ∈ s.past, terminations l ≤ 1) ∧
      totalTerminations s =
        s.watchdogs.countP (fun w => decide (w.status = WStatus.expired)) ∧
      (s.shutdownRequested = true → armedCount s + terminations s.log = 1) ∧
      (s.shutdownRequested = false → armedCount s = 0 ∧ terminations s.log = 0) ∧
      (∀ i w, s.watchdogs[i]? = some w → w.status = WStatus.armed →
        terminations (timerFires i s).log = 1 ∧
        (timerFires i s).watchdogs[i]? = some { w with status := WStatus.expired }) ∧
      (∀ (st : Step) (s1 : State) (i : Nat) (w : Watchdog), st.apply s = some s1 →
        s.watchdogs[i]? = some w →
        ∃ w1, s1.watchdogs[i]? = some w1 ∧ w1.resetC = w.resetC ∧
          (w1.status = w.status ∨
            (w.status = WStatus.armed ∧ w1.status = WStatus.expired ∧
              st = Step.timerFires i ∧ totalTerminations s1 = totalTerminations s + 1) ∨
            (w.status = WStatus.armed ∧ w1.status = WStatus.aborted ∧
              st = Step.testingReset ∧ totalTerminations s1 = totalTerminations s))) := by
  obtain ⟨s, hrun, hi⟩ := runSteps_inv steps inv_init
  refine ⟨s, hrun, terminations_log_le hi, hi.past_ok, hi.expired_total,
    fun hr => (hi.triggered hr).2.1, fun hr => ⟨(hi.idle hr).2.2.2.1, (hi.idle hr).2.2.2.2.1⟩,
    fun i w hw ha => armed_fires hi i w hw ha, ?_⟩
  intro st s1 i w hst hw
  exact watchdog_step st hst i w hw

/-- C6: from every state reached by completed operations, and more generally from
every state reached by any interleaving of atomic steps in which no goroutine
of `RequestShutdown` is left running, `TestingReset` returns, and the state it
returns is at the start of a lifecycle: the three observers report no shutdown,
the registry holds only the cancel function of the new context, no watchdog is
armed and no timer can call `Terminate`; the state looks like the one after
package start, and so does the state after a following `RequestShutdown`, also
when callbacks are registered first, for every choice of the scheduler. -/
theorem C6_reset_starts_lifecycle (ops : List Op) (steps : List Step) :
    (∃ s s1, run ops init = some s ∧ TestingReset s = some s1 ∧ LifecycleStart s1) ∧
    (∃ s, runSteps steps init = some s ∧
      (s.pending = [] → ∃ s1, TestingReset s = some s1 ∧ LifecycleStart s1)) := by
  constructor
  · obtain ⟨s, hrun, hq⟩ := quiet_run ops quiet_init
    obtain ⟨s1, h1, h2⟩ := lifecycleStart_of_reset hq
    exact ⟨s, s1, hrun, h1, h2⟩
  · obtain ⟨s, hrun, hi⟩ := runSteps_inv steps inv_init
    exact ⟨s, hrun, fun hp => lifecycleStart_of_reset ⟨hi, hp⟩⟩

/-- C7 as the code has it: `RegisterCallback(f)` leaves the registry as it is when `f`
is nil and appends `f` as last element otherwise; the requested flag, the
broadcast (context, its channel, the cancelled contexts), the reset channel, the
wait group, the watchdogs, the started goroutines and the logs are unchanged in
both cases.  Besides the registry it can change the signal wiring only: when
`once` is not yet done the call marks it done and, if `Signals` is not empty,
starts the listener for these signals, also when `f` is nil; when `once` is
done the whole state but the registry is unchanged. -/
theorem C7_register_callback (f : Option Nat) (s : State) :
    (RegisterCallback f s).shutdownFuncs =
      (match f with
        | none => s.shutdownFuncs
        | some k => s.shutdownFuncs ++ [Fn.user k]) ∧
    (RegisterCallback f s).shutdownRequested = s.shutdownRequested ∧
    (RegisterCallback f s).shutdownC = s.shutdownC ∧
    (RegisterCallback f s).shutdownCtx = s.shutdownCtx ∧
    (RegisterCallback f s).cancelled = s.cancelled ∧
    (RegisterCallback f s).testingResetC = s.testingResetC ∧
    (RegisterCallback f s).closed = s.closed ∧
    (RegisterCallback f s).testingResetWG = s.testingResetWG ∧
    (RegisterCallback f s).watchdogs = s.watchdogs ∧
    (RegisterCallback f s).pending = s.pending ∧
    (RegisterCallback f s).log = s.log ∧
    (RegisterCallback f s).past = s.past ∧
    (RegisterCallback f s).fresh = s.fresh ∧
    (RegisterCallback f s).Signals = s.Signals ∧
    (view (RegisterCallback f s)).requested = (view s).requested ∧
    (view (RegisterCallback f s)).inProgress = (view s).inProgress ∧
    (view (RegisterCallback f s)).context = (view s).context ∧
    (RegisterCallback f s).once = true ∧
    (RegisterCallback f s).listening =
      (if s.once = false ∧ s.Signals ≠ [] then some s.Signals else s.listening) ∧
    (s.once = true →
      RegisterCallback f s =
        { s with shutdownFuncs :=
            (match f with
              | none => s.shutdownFuncs
              | some k => s.shutdownFuncs ++ [Fn.user k]) }) := by
  obtain ⟨h1, h2, h3, h4, h5, h6, h7, h8, h9, h10, h11, h12, h13, h14, h15, h16, h17, h18,
    h19⟩ := RegisterCallback_frame f s
  refine ⟨h1, h2, h3, h4, h5, h6, h7, h8, h9, h10, h11, h12, h13, h14, h17, h18, h19,
    ?_, ?_, ?_⟩
  · rw [h15]
    unfold catchSignals
    by_cases ho : s.once = true
    · simp [ho]
    · simp [ho]
  · rw [h16]
    unfold catchSignals
    by_cases ho : s.once = true
    · simp [ho]
    · cases hs : s.Signals with
      | nil => simp [ho, hs]
      | cons x xs => simp [ho, hs]
  · intro ho
    have hc : catchSignals s = s := by
      unfold catchSignals
      rw [if_pos ho]
    cases f with
    | none =>
      unfold RegisterCallback
      simp only [hc]
    | some k =>
      unfold RegisterCallback
      simp only [hc]

/-- C7 as stated fails: in a fresh package `RegisterCallback(nil)` changes the state
though not the registry: `once` is done afterwards and the listener for
SIGINT and SIGTERM is started. -/
theorem C7_counterexample :
    (RegisterCallback none init).shutdownFuncs = init.shutdownFuncs ∧
    init.once = false ∧ (RegisterCallback none init).once = true ∧
    init.listening = none ∧
    (RegisterCallback none init).listening = some [sigInterrupt, sigTerm] ∧
    RegisterCallback none init ≠ init ∧
    signal sigInterrupt [] init = init ∧
    (signal sigInterrupt [] (RegisterCallback none init)).shutdownRequested = true :=
  ⟨rfl, rfl, rfl, rfl, rfl, by decide, rfl, rfl⟩

/-- C8 fails on the code: with the default `Signals`, `InProgress()` sets up signal
handling and a first SIGINT requests shutdown; after `TestingReset()` a call of
`InProgress()` sets up nothing (`once` is still done and the goroutine has
returned), and the next SIGINT changes nothing: no shutdown is requested. -/
theorem C8_signal_lost_after_reset :
    ∃ s1 s2, run [Op.InProgress, Op.signal sigInterrupt []] init = some s1 ∧
      (Requested s1).2 = true ∧
      run [Op.TestingReset, Op.InProgress] s1 = some s2 ∧
      s2.Signals = [sigInterrupt, sigTerm] ∧ s2.once = true ∧ s2.listening = none ∧
      signal sigInterrupt [] s2 = s2 ∧
      (Requested (signal sigInterrupt [] s2)).2 = false ∧
      doneClosed (InProgress (signal sigInterrupt [] s2)).1
        (InProgress (signal sigInterrupt [] s2)).2 = false :=
  ⟨_, _, rfl, by decide, rfl, rfl, rfl, rfl, rfl, by decide, by decide⟩

/-- C9 fails on the code: after `RegisterCallback(f1)` and `RegisterCallback(f2)` the
goroutines of `RequestShutdown` are started in the order cancel, f1, f2, but when
the scheduler runs the last one first f2 is called before f1. -/
theorem C9_order_not_kept :
    (requestBegin (registerAll [some 1, some 2] init)).pending =
      [Fn.cancel 2, Fn.user 1, Fn.user 2] ∧
    (RequestShutdown [2] (registerAll [some 1, some 2] init)).log =
      [Event.requestShutdown, Event.called (Fn.user 2), Event.called (Fn.cancel 2),
        Event.called (Fn.user 1)] ∧
    userCalls (RequestShutdown [2] (registerAll [some 1, some 2] init)).log = [2, 1] ∧
    run [Op.RegisterCallback (some 1), Op.RegisterCallback (some 2), Op.RequestShutdown [2]]
      init = some (RequestShutdown [2] (registerAll [some 1, some 2] init)) :=
  ⟨rfl, rfl, rfl, rfl⟩

/-- C10 fails on the code: with one callback `f` registered, the goroutines of the
`RequestShutdown` that makes the transition are started in the order cancel, `f`
(drain and watchdog first), but the scheduler can run the goroutine of `f`
before the one of the cancel function: `f` is then called, and has returned,
while `Requested()` is false, the `InProgress()` channel open and `Context()` not
cancelled; the broadcast is fired only afterwards. -/
theorem C10_callback_before_broadcast :
    (requestBegin (RegisterCallback (some 1) init)).pending = [Fn.cancel 2, Fn.user 1] ∧
    (requestBegin (RegisterCallback (some 1) init)).shutdownFuncs = [] ∧
    armedCount (requestBegin (RegisterCallback (some 1) init)) = 1 ∧
    (Requested (requestBegin (RegisterCallback (some 1) init))).2 = false ∧
    (goroutine 1 (requestBegin (RegisterCallback (some 1) init))).log =
      [Event.requestShutdown, Event.called (Fn.user 1)] ∧
    (Requested (goroutine 1 (requestBegin (RegisterCallback (some 1) init)))).2 = false ∧
    doneClosed (InProgress (goroutine 1 (requestBegin (RegisterCallback (some 1) init)))).1
      (InProgress (goroutine 1 (requestBegin (RegisterCallback (some 1) init)))).2 = false ∧
    doneClosed (Context (goroutine 1 (requestBegin (RegisterCallback (some 1) init)))).1
      (Context (goroutine 1 (requestBegin (RegisterCallback (some 1) init)))).2 = false ∧
    (RequestShutdown [1] (RegisterCallback (some 1) init)).log =
      [Event.requestShutdown, Event.called (Fn.user 1), Event.called (Fn.cancel 2)] ∧
    (Requested (RequestShutdown [1] (RegisterCallback (some 1) init))).2 = true ∧
    run [Op.RegisterCallback (some 1), Op.RequestShutdown [1]] init =
      some (RequestShutdown [1] (RegisterCallback (some 1) init)) :=
  ⟨rfl, rfl, rfl, by decide, rfl, by decide, by decide, by decide, rfl, by decide, rfl⟩

end Shutdown
